import Mathlib

/-! foss-image-filter: a shallow embedding of `image_filter.c`

The C program reads a binary PPM (P6) image, applies one transform and writes
the result.  This file embeds the data model (`Pixel`, `Image`), the codec
(`read_ppm`, `write_ppm`) and the geometric transforms, and proves properties
of them.

Modelling conventions
* `int` values are `Int`; the only place where the range of `int` matters is
  the `%d` conversion of the header, see `store_int`.
* `unsigned char` values are `Nat`; every store into an `unsigned char` goes
  through `to_uchar` (reduction modulo 256).
* `Pixel **pixels` is a list of rows.  A read outside the allocated rows is
  undefined behaviour in C; `get_pixel` returns the zero pixel there and
  `set_pixel` leaves the grid unchanged.  The theorems concern grids that
  satisfy `Image.valid`, where every access of the program is in range.
* `malloc` returns uninitialised storage: `allocate_pixels` takes the
  previous content of the storage as the parameter `junk`.
* Whether `malloc` returns `NULL` depends on the memory left.  The transforms
  and `read_ppm` are embedded for a run with enough memory (`malloc_ok`);
  `read_ppm_heap` is `read_ppm` with an arbitrary heap, which says for each
  `malloc` call of the run whether it is granted.
* `for (int i = 0; i < n; i++)` is `for_loop n`; the division of two `int`
  values truncates, which is `Int.tdiv`.
* A file is the list of its bytes: `read_ppm` takes the bytes of the opened
  file and `write_ppm` returns the bytes written.  `fopen` is taken to
  succeed.
* The comment loop of `read_ppm` has no bound of its own, so `read_ppm` takes
  a fuel; `none` means that it has not returned within the fuel.
-/

namespace ImageFilter

/-- The C struct `Pixel`: three `unsigned char` channels. -/
structure Pixel where
  r : Nat
  g : Nat
  b : Nat
deriving DecidableEq

/-- The C struct `Image`: three `int` fields and the rows of pixels. -/
structure Image where
  width : Int
  height : Int
  max_color : Int
  pixels : List (List Pixel)
deriving DecidableEq

/-- The data-model invariant of a grid: positive dimensions, `height` rows,
`width` pixels in every row. -/
def Image.valid (img : Image) : Prop :=
  1 ≤ img.width ∧ 1 ≤ img.height ∧ img.pixels.length = img.height.toNat ∧
    ∀ row ∈ img.pixels, row.length = img.width.toNat

instance (img : Image) : Decidable img.valid := by
  unfold Image.valid
  infer_instance

/-- The loop `for (int i = 0; i < n; i++) body`, run on the state `s`. -/
def for_loop {σ : Type} (n : Int) (body : Nat → σ → σ) (s : σ) : σ :=
  (List.range n.toNat).foldl (fun st i => body i st) s

/-- The read `pixels[i][j]`. -/
def get_pixel (px : List (List Pixel)) (i j : Int) : Pixel :=
  if 0 ≤ i ∧ 0 ≤ j then (px.getD i.toNat []).getD j.toNat ⟨0, 0, 0⟩ else ⟨0, 0, 0⟩

/-- The write `pixels[i][j] = v`. -/
def set_pixel (px : List (List Pixel)) (i j : Int) (v : Pixel) : List (List Pixel) :=
  if 0 ≤ i ∧ 0 ≤ j then px.set i.toNat ((px.getD i.toNat []).set j.toNat v) else px

/-- The store of an `int` into an `unsigned char`. -/
def to_uchar (c : Int) : Nat := (c % 256).toNat

/-- Whether `malloc` of `count` elements succeeds when memory is not exhausted.
The `int` count is converted to `size_t`, so a negative count asks for more
than half of the address space and fails; a non-negative count is granted.
This is the allocator of a run with enough memory; `malloc_heap` is the
allocator of a run in which memory can run short. -/
def malloc_ok (count : Int) : Bool := decide (0 ≤ count)

/-- The C function `allocate_pixels`: `height` rows of `width` pixels, or `none`
for the `NULL` result.  `junk i j` is the uninitialised content of cell
`(i, j)`. -/
def allocate_pixels (junk : Nat → Nat → Pixel) (width height : Int) :
    Option (List (List Pixel)) :=
  if ¬ malloc_ok height then none
  else if 0 < height ∧ ¬ malloc_ok width then none
  else some ((List.range height.toNat).map fun i =>
    (List.range width.toNat).map fun j => junk i j)

/-- The C function `rotate_90_clockwise`; `none` is the `NULL` result. -/
def rotate_90_clockwise (junk : Nat → Nat → Pixel) (img : Image) : Option Image :=
  let rwidth := img.height
  let rheight := img.width
  match allocate_pixels junk rwidth rheight with
  | none => none
  | some px =>
    some
      { width := rwidth
        height := rheight
        max_color := img.max_color
        pixels :=
          for_loop img.height (fun i p =>
            for_loop img.width (fun j q =>
              set_pixel q j (rwidth - 1 - i) (get_pixel img.pixels i j)) p) px }

/-- The C function `rotate_90_counterclockwise`; `none` is the `NULL` result. -/
def rotate_90_counterclockwise (junk : Nat → Nat → Pixel) (img : Image) : Option Image :=
  let rwidth := img.height
  let rheight := img.width
  match allocate_pixels junk rwidth rheight with
  | none => none
  | some px =>
    some
      { width := rwidth
        height := rheight
        max_color := img.max_color
        pixels :=
          for_loop img.height (fun i p =>
            for_loop img.width (fun j q =>
              set_pixel q (rheight - 1 - j) i (get_pixel img.pixels i j)) p) px }

/-- The C function `apply_grayscale` (in place: the new value of `*img`).  The
sum of the three channels is computed in `int` and the quotient is stored in
an `unsigned char`. -/
def apply_grayscale (img : Image) : Image :=
  { img with
    pixels :=
      for_loop img.height (fun i p =>
        for_loop img.width (fun j q =>
          let gray := to_uchar
            (Int.tdiv (((get_pixel q i j).r : Int) + (get_pixel q i j).g + (get_pixel q i j).b) 3)
          set_pixel q i j ⟨gray, gray, gray⟩) p) img.pixels }

/-- The C function `apply_invert` (in place: the new value of `*img`). -/
def apply_invert (img : Image) : Image :=
  { img with
    pixels :=
      for_loop img.height (fun i p =>
        for_loop img.width (fun j q =>
          set_pixel q i j
            ⟨to_uchar (255 - ((get_pixel q i j).r : Int)),
             to_uchar (255 - ((get_pixel q i j).g : Int)),
             to_uchar (255 - ((get_pixel q i j).b : Int))⟩) p) img.pixels }

/-- The C function `flip_horizontal` (in place: the new value of `*img`). -/
def flip_horizontal (img : Image) : Image :=
  { img with
    pixels :=
      for_loop img.height (fun i p =>
        for_loop (Int.tdiv img.width 2) (fun j q =>
          let temp := get_pixel q i j
          let q1 := set_pixel q i j (get_pixel q i (img.width - 1 - j))
          set_pixel q1 i (img.width - 1 - j) temp) p) img.pixels }

/-- The C function `flip_vertical` (in place: the new value of `*img`). -/
def flip_vertical (img : Image) : Image :=
  { img with
    pixels :=
      for_loop (Int.tdiv img.height 2) (fun i p =>
        for_loop img.width (fun j q =>
          let temp := get_pixel q i j
          let q1 := set_pixel q i j (get_pixel q (img.height - 1 - i) j)
          set_pixel q1 (img.height - 1 - i) j temp) p) img.pixels }

/-- The C function `rotate_180`. -/
def rotate_180 (img : Image) : Image :=
  flip_vertical (flip_horizontal img)

/-! ## The PPM codec

A file opened for reading is the list of its unread bytes. -/

/-- The value `EOF` of `<stdio.h>`. -/
def EOF : Int := -1

/-- The C function `fgetc`: the next byte, or `EOF` at the end of the file. -/
def fgetc : List Nat → Int × List Nat
  | [] => (EOF, [])
  | c :: cs => ((c : Int), cs)

/-- The C function `ungetc`: pushes `c` back, and does nothing for `EOF`. -/
def ungetc (c : Int) (s : List Nat) : List Nat :=
  if c = EOF then s else to_uchar c :: s

/-- The C function `isspace` in the "C" locale: space, and `\t \n \v \f \r`. -/
def isspace (c : Nat) : Bool := c == 32 || (9 ≤ c && c ≤ 13)

/-- The C function `isdigit`. -/
def isdigit (c : Nat) : Bool := 48 ≤ c && c ≤ 57

/-- The white-space skipping that precedes a `%s` or `%d` conversion. -/
def skip_space : List Nat → List Nat
  | [] => []
  | c :: cs => if isspace c then skip_space cs else c :: cs

/-- The conversion `%2s` of `fscanf`: after leading white space, at most two
bytes that are not white space.  Returns the bytes stored and the rest of the
file; `fscanf` returns 1 exactly when a byte was stored. -/
def scan_str2 (s : List Nat) : List Nat × List Nat :=
  match skip_space s with
  | [] => ([], [])
  | c :: cs =>
    match cs with
    | [] => ([c], [])
    | d :: ds => if isspace d then ([c], d :: ds) else ([c, d], ds)

/-- The digits of a `%d` conversion: accumulates the decimal value of the
longest run of digits; returns the value, the number of digits and the rest. -/
def scan_digits : List Nat → Nat → Nat → Nat × Nat × List Nat
  | [], acc, n => (acc, n, [])
  | c :: cs, acc, n =>
    if isdigit c then scan_digits cs (acc * 10 + (c - 48)) (n + 1) else (acc, n, c :: cs)

/-- The store of a `%d` conversion into an `int`.  A value outside the range of
`int` cannot be stored; as the C library does, the value is saturated to the
range of `long` (64 bits) and then truncated to the 32 bits of `int`. -/
def store_int (v : Int) : Int :=
  let l := max (-(2 : Int) ^ 63) (min v ((2 : Int) ^ 63 - 1))
  (l + (2 : Int) ^ 31) % (2 : Int) ^ 32 - (2 : Int) ^ 31

/-- The conversion `%d` of `fscanf`: leading white space, an optional sign, one
or more digits.  `none` is a failed conversion (no digit, or the end of the
file). -/
def scan_int (s : List Nat) : Option (Int × List Nat) :=
  match skip_space s with
  | [] => none
  | c :: cs =>
    if c = 45 then
      match scan_digits cs 0 0 with
      | (v, n, rest) => if n = 0 then none else some (store_int (-(v : Int)), rest)
    else if c = 43 then
      match scan_digits cs 0 0 with
      | (v, n, rest) => if n = 0 then none else some (store_int (v : Int), rest)
    else
      match scan_digits (c :: cs) 0 0 with
      | (v, n, rest) => if n = 0 then none else some (store_int (v : Int), rest)

/-- The call `fscanf(file, "%d %d %d", ...)`: `some` when it returns 3. -/
def scan_header (s : List Nat) : Option (Int × Int × Int × List Nat) :=
  match scan_int s with
  | none => none
  | some (w, s1) =>
    match scan_int (skip_space s1) with
    | none => none
    | some (h, s2) =>
      match scan_int (skip_space s2) with
      | none => none
      | some (m, s3) => some (w, h, m, s3)

/-- The loop `while (fgetc(file) != '\n');`.  It has no bound of its own: `none`
means that it is still running after `fuel` reads. -/
def skip_line : Nat → List Nat → Option (List Nat)
  | 0, _ => none
  | fuel + 1, s =>
    match fgetc s with
    | (c, s1) => if c ≠ 10 then skip_line fuel s1 else some s1

/-- The loop `while (c == '#') { while (fgetc(file) != '\n'); c = fgetc(file); }`
entered with the byte `c` already read.  `none` means that it is still running
when the fuel is used up. -/
def skip_comments : Nat → Int → List Nat → Option (Int × List Nat)
  | 0, _, _ => none
  | fuel + 1, c, s =>
    if c = 35 then
      match skip_line fuel s with
      | none => none
      | some s1 =>
        match fgetc s1 with
        | (c1, s2) => skip_comments fuel c1 s2
    else some (c, s)

/-- What `read_ppm` returns: one of its three `NULL` exits, named after the
message printed, or the image. -/
inductive ReadResult where
  | not_p6
  | invalid_header
  | alloc_failed
  | ok (img : Image)
deriving DecidableEq

/-- The body of the pixel loop of `read_ppm`: three `fgetc`, stored in the
channels of cell `(i, j)`. -/
def read_cell (px : List (List Pixel)) (i j : Int) (s : List Nat) :
    List (List Pixel) × List Nat :=
  match fgetc s with
  | (r, s1) =>
    match fgetc s1 with
    | (g, s2) =>
      match fgetc s2 with
      | (b, s3) => (set_pixel px i j ⟨to_uchar r, to_uchar g, to_uchar b⟩, s3)

/-- The pixel loop of `read_ppm`: row by row, and in a row cell by cell. -/
def read_pixels (width height : Int) (px : List (List Pixel)) (s : List Nat) :
    List (List Pixel) × List Nat :=
  for_loop height (fun i st =>
    for_loop width (fun j st1 => read_cell st1.1 i j st1.2) st) (px, s)

/-- The C function `read_ppm` on the bytes of the opened file.  The outer
`none` means that the function has not returned after `fuel` steps of its
comment loops. -/
def read_ppm (junk : Nat → Nat → Pixel) (fuel : Nat) (file : List Nat) :
    Option ReadResult :=
  match scan_str2 file with
  | (magic, s0) =>
    if magic ≠ [80, 54] then some ReadResult.not_p6
    else
      match fgetc s0 with
      | (c, s1) =>
        match skip_comments fuel c s1 with
        | none => none
        | some (c1, s2) =>
          match scan_header (ungetc c1 s2) with
          | none => some ReadResult.invalid_header
          | some (w, h, m, s3) =>
            match fgetc s3 with
            | (_, s4) =>
              match allocate_pixels junk w h with
              | none => some ReadResult.alloc_failed
              | some px =>
                some (ReadResult.ok
                  { width := w, height := h, max_color := m,
                    pixels := (read_pixels w h px s4).1 })

/-- The decimal digits of `n`, most significant first, as `%d` prints them;
`fuel` bounds the number of digits. -/
def print_digits : Nat → Nat → List Nat → List Nat
  | 0, _, acc => acc
  | fuel + 1, n, acc =>
    if n < 10 then (48 + n) :: acc else print_digits fuel (n / 10) ((48 + n % 10) :: acc)

/-- The conversion `%d` of `fprintf`. -/
def print_int (v : Int) : List Nat :=
  if v < 0 then 45 :: print_digits (v.natAbs + 1) v.natAbs []
  else print_digits (v.natAbs + 1) v.natAbs []

/-- The C function `fputc`: appends the byte `(unsigned char) c`. -/
def fputc (c : Nat) (out : List Nat) : List Nat := out ++ [c % 256]

/-- The C function `write_ppm`: the bytes written to the created file. -/
def write_ppm (img : Image) : List Nat :=
  let header := [80, 54, 10] ++ print_int img.width ++ [32] ++ print_int img.height ++
    [10] ++ print_int img.max_color ++ [10]
  for_loop img.height (fun i out =>
    for_loop img.width (fun j o =>
      let p := get_pixel img.pixels i j
      fputc p.b (fputc p.g (fputc p.r o))) out) header

/-- The bytes of an ASCII string. -/
def bytes (s : String) : List Nat := s.toList.map Char.toNat

/-! ## Decoding when memory can run short -/

/-- A `malloc` call of a run in which memory can run short.  `heap k count`
tells whether the `k`-th `malloc` call of the run (counted from 0), which asks
for `count` elements, is granted; a negative count is never granted. -/
def malloc_heap (heap : Nat → Int → Bool) (k : Nat) (count : Int) : Bool :=
  malloc_ok count && heap k count

/-- The C function `allocate_pixels` with the heap `heap`, its first `malloc`
being call number `first` of the run: the table of `height` row pointers, then
one `malloc` of `width` pixels per row; `none`, the `NULL` result, as soon as
one of them fails. -/
def allocate_pixels_heap (heap : Nat → Int → Bool) (first : Nat) (junk : Nat → Nat → Pixel)
    (width height : Int) : Option (List (List Pixel)) :=
  if ¬ malloc_heap heap first height then none
  else if ¬ (List.range height.toNat).all (fun i => malloc_heap heap (first + 1 + i) width) then
    none
  else some ((List.range height.toNat).map fun i =>
    (List.range width.toNat).map fun j => junk i j)

/-- The C function `read_ppm` with the heap `heap`: call 0 is the `malloc` of the
`Image` struct, calls 1, 2, ... are those of `allocate_pixels`.  The outer
`none` means that the function has not returned after `fuel` steps of its
comment loops. -/
def read_ppm_heap (heap : Nat → Int → Bool) (junk : Nat → Nat → Pixel) (fuel : Nat)
    (file : List Nat) : Option ReadResult :=
  match scan_str2 file with
  | (magic, s0) =>
    if magic ≠ [80, 54] then some ReadResult.not_p6
    else if ¬ malloc_heap heap 0 1 then some ReadResult.alloc_failed
    else
      match fgetc s0 with
      | (c, s1) =>
        match skip_comments fuel c s1 with
        | none => none
        | some (c1, s2) =>
          match scan_header (ungetc c1 s2) with
          | none => some ReadResult.invalid_header
          | some (w, h, m, s3) =>
            match fgetc s3 with
            | (_, s4) =>
              match allocate_pixels_heap heap 1 junk w h with
              | none => some ReadResult.alloc_failed
              | some px =>
                some (ReadResult.ok
                  { width := w, height := h, max_color := m,
                    pixels := (read_pixels w h px s4).1 })

/-- Every `malloc` call that `read_ppm` makes for an image of `width` by `height`
pixels is granted by the heap: the `Image` struct (call 0), the table of
`height` row pointers (call 1) and the `height` rows of `width` pixels (calls
2, 3, ...). -/
def memory_granted (heap : Nat → Int → Bool) (width height : Int) : Bool :=
  malloc_heap heap 0 1 && malloc_heap heap 1 height &&
    (List.range height.toNat).all (fun i => malloc_heap heap (1 + 1 + i) width)

/-- The heap of a run with enough memory: every call is granted. -/
def plentiful_heap : Nat → Int → Bool := fun _ _ => true

/-- A heap that grants no request of more than 1000 elements. -/
def small_heap : Nat → Int → Bool := fun _ count => decide (count ≤ 1000)

/-- The grid of the concrete rotate scenario: width 2, height 1. -/
def scenario_2x1 : Image :=
  { width := 2, height := 1, max_color := 255, pixels := [[⟨10, 20, 30⟩, ⟨40, 50, 60⟩]] }

/-- The header that `write_ppm` prints: `"P6\n<width> <height>\n<max_color>\n"`. -/
def canonical_header (w h m : Int) : List Nat :=
  [80, 54, 10] ++ print_int w ++ [32] ++ print_int h ++ [10] ++ print_int m ++ [10]

/-- A P6 buffer: the magic, white space `ws1`, the width, white space `ws2`, the
height, white space `ws3`, max_color, the single separator byte `sep`, and the
data bytes. -/
def p6_buffer (ws1 : List Nat) (w : Int) (ws2 : List Nat) (h : Int) (ws3 : List Nat) (m : Int)
    (sep : Nat) (data : List Nat) : List Nat :=
  [80, 54] ++ ws1 ++ print_int w ++ ws2 ++ print_int h ++ ws3 ++ print_int m ++ [sep] ++ data

/-- The pixel that three consecutive data bytes starting at offset `n` encode. -/
def pixel_at (data : List Nat) (n : Nat) : Pixel :=
  ⟨data.getD n 0, data.getD (n + 1) 0, data.getD (n + 2) 0⟩

/-- A grid of width 1 and height 2. -/
def tall_1x2 : Image :=
  { width := 1, height := 2, max_color := 255, pixels := [[⟨10, 20, 30⟩], [⟨40, 50, 60⟩]] }

/-- The junk-free storage used when a transform is evaluated on an example. -/
def zero_junk : Nat → Nat → Pixel := fun _ _ => ⟨0, 0, 0⟩

/-- The grid `px` has `h` rows of `w` pixels. -/
def shape (px : List (List Pixel)) (h w : Int) : Prop :=
  px.length = h.toNat ∧ ∀ row ∈ px, row.length = w.toNat

instance (px : List (List Pixel)) (h w : Int) : Decidable (shape px h w) := by
  unfold shape
  infer_instance

/-- Every channel of every pixel of the grid holds an `unsigned char` value. -/
def Image.eight_bit (img : Image) : Prop :=
  ∀ row ∈ img.pixels, ∀ p ∈ row, p.r < 256 ∧ p.g < 256 ∧ p.b < 256

instance (img : Image) : Decidable img.eight_bit := by
  unfold Image.eight_bit
  infer_instance

/-- The three `int` fields of the grid hold values of a 32-bit `int`. -/
def Image.fits_int (img : Image) : Prop :=
  img.width ≤ 2147483647 ∧ img.height ≤ 2147483647 ∧
    -2147483648 ≤ img.max_color ∧ img.max_color ≤ 2147483647

instance (img : Image) : Decidable img.fits_int := by
  unfold Image.fits_int
  infer_instance

/-- The pixel that `apply_grayscale` stores in place of `p`. -/
def gray_pixel (p : Pixel) : Pixel :=
  ⟨to_uchar (Int.tdiv ((p.r : Int) + p.g + p.b) 3),
   to_uchar (Int.tdiv ((p.r : Int) + p.g + p.b) 3),
   to_uchar (Int.tdiv ((p.r : Int) + p.g + p.b) 3)⟩

/-- The pixel that `apply_invert` stores in place of `p`. -/
def invert_pixel (p : Pixel) : Pixel :=
  ⟨to_uchar (255 - (p.r : Int)), to_uchar (255 - (p.g : Int)), to_uchar (255 - (p.b : Int))⟩

/-- A grid of width 3 and height 2; its first data byte is a white-space byte
and a later one is the byte of `#`. -/
def grid_3x2 : Image :=
  { width := 3, height := 2, max_color := 255,
    pixels := [[⟨10, 32, 35⟩, ⟨0, 255, 128⟩, ⟨1, 2, 3⟩],
               [⟨9, 9, 9⟩, ⟨200, 100, 50⟩, ⟨254, 255, 255⟩]] }

/-- Channel `k` of a pixel: 0 is red, 1 is green, anything else is blue. -/
def channel (k : Nat) (p : Pixel) : Nat :=
  if k = 0 then p.r else if k = 1 then p.g else p.b

/-- The data bytes of a grid of `W` columns and `H` rows: row-major, three bytes
per pixel. -/
def pixel_bytes (W H : Nat) (px : List (List Pixel)) : List Nat :=
  (List.range (3 * W * H)).map fun n =>
    channel (n % 3) (get_pixel px ((n / 3 / W : Nat) : Int) ((n / 3 % W : Nat) : Int))

/-! ## Loops and grid accesses -/

theorem for_loop_inv {σ : Type} (P : Nat → σ → Prop) (n : Int) (body : Nat → σ → σ) (s : σ)
    (h0 : P 0 s)
    (hstep : ∀ (k : Nat) (st : σ), (k : Int) < n → P k st → P (k + 1) (body k st)) :
    P n.toNat (for_loop n body s) := by
  unfold for_loop
  have key : ∀ m : Nat, m ≤ n.toNat →
      P m ((List.range m).foldl (fun st i => body i st) s) := by
    intro m
    induction m with
    | zero => intro _; simpa using h0
    | succ k ih =>
      intro hk
      rw [List.range_succ, List.foldl_append]
      simp only [List.foldl_cons, List.foldl_nil]
      exact hstep k _ (by omega) (ih (by omega))
  exact key _ le_rfl

theorem shape_set_pixel {px : List (List Pixel)} {h w : Int} (hs : shape px h w)
    (i j : Int) (v : Pixel) : shape (set_pixel px i j v) h w := by
  unfold set_pixel
  split
  · refine ⟨by simpa using hs.1, ?_⟩
    intro row hrow
    rcases List.mem_or_eq_of_mem_set hrow with hmem | heq
    · exact hs.2 row hmem
    · subst heq
      rw [List.length_set]
      by_cases hlt : i.toNat < px.length
      · rw [List.getD_eq_getElem _ _ hlt]
        exact hs.2 _ (List.getElem_mem hlt)
      · rw [List.getD_eq_default _ _ (by omega)] at hrow
        rw [List.set_eq_of_length_le (by omega)] at hrow
        rw [List.getD_eq_default _ _ (by omega)]
        simp only [List.set_nil] at hrow
        exact hs.2 _ hrow
  · exact hs

theorem get_set_pixel {px : List (List Pixel)} {h w : Int} (hs : shape px h w)
    (i j : Int) (v : Pixel) (a b : Int) (ha0 : 0 ≤ a) (ha : a < h) (hb0 : 0 ≤ b) (hb : b < w) :
    get_pixel (set_pixel px i j v) a b =
      if i = a ∧ j = b then v else get_pixel px a b := by
  have hlen : a.toNat < px.length := by rw [hs.1]; omega
  have hrow : (px[a.toNat]).length = w.toNat := hs.2 _ (List.getElem_mem hlen)
  unfold set_pixel
  by_cases hij : 0 ≤ i ∧ 0 ≤ j
  · rw [if_pos hij]
    unfold get_pixel
    rw [if_pos ⟨ha0, hb0⟩]
    simp only [List.getD_eq_getElem?_getD, List.getElem?_set]
    by_cases hia : i = a
    · subst hia
      simp only [if_true, hlen, List.getElem?_eq_getElem, Option.getD_some, true_and,
        List.getElem?_set]
      by_cases hjb : j = b
      · subst hjb
        have : j.toNat < (px[i.toNat]).length := by omega
        simp [this]
      · have : ¬ j.toNat = b.toNat := by omega
        simp [this, hjb, ha0, hb0]
    · have : ¬ i.toNat = a.toNat := by omega
      simp [this, hia, ha0, hb0]
  · rw [if_neg hij, if_neg (by omega)]

theorem grid_ext {px py : List (List Pixel)} {h w : Int} (hx : shape px h w)
    (hy : shape py h w)
    (hget : ∀ a b : Nat, (a : Int) < h → (b : Int) < w →
      get_pixel px a b = get_pixel py a b) : px = py := by
  apply List.ext_getElem (by rw [hx.1, hy.1])
  intro a h1 h2
  have hrx : (px[a]).length = w.toNat := hx.2 _ (List.getElem_mem h1)
  have hry : (py[a]).length = w.toNat := hy.2 _ (List.getElem_mem h2)
  apply List.ext_getElem (by rw [hrx, hry])
  intro b h3 h4
  have hah : (a : Int) < h := by have := hx.1; omega
  have hbw : (b : Int) < w := by omega
  have := hget a b hah hbw
  unfold get_pixel at this
  simp only [Int.toNat_ofNat, Int.ofNat_nonneg, and_self, if_true] at this
  rw [List.getD_eq_getElem _ _ h1, List.getD_eq_getElem _ _ h2,
    List.getD_eq_getElem _ _ h3, List.getD_eq_getElem _ _ h4] at this
  exact this

theorem allocate_pixels_ok (junk : Nat → Nat → Pixel) (w h : Int) (hw : 0 ≤ w) (hh : 0 ≤ h) :
    ∃ px, allocate_pixels junk w h = some px ∧ shape px h w := by
  refine ⟨(List.range h.toNat).map fun i => (List.range w.toNat).map fun j => junk i j, ?_, ?_⟩
  · unfold allocate_pixels malloc_ok
    rw [if_neg (by simpa using hh), if_neg (by simp [hw])]
  · refine ⟨by simp, ?_⟩
    intro row hrow
    simp only [List.mem_map, List.mem_range] at hrow
    obtain ⟨_, _, rfl⟩ := hrow
    simp

/-! ## The rotations, cell by cell -/

theorem rotate_90_clockwise_spec (junk : Nat → Nat → Pixel) (img : Image) (hv : img.valid) :
    ∃ out, rotate_90_clockwise junk img = some out ∧ out.width = img.height ∧
      out.height = img.width ∧ out.max_color = img.max_color ∧
      shape out.pixels img.width img.height ∧
      ∀ r c : Int, 0 ≤ r → r < img.width → 0 ≤ c → c < img.height →
        get_pixel out.pixels r c = get_pixel img.pixels (img.height - 1 - c) r := by
  obtain ⟨hw, hh, -, -⟩ := hv
  obtain ⟨px, hpx, hshape⟩ := allocate_pixels_ok junk img.height img.width (by omega) (by omega)
  unfold rotate_90_clockwise
  simp only [hpx]
  refine ⟨_, rfl, rfl, rfl, rfl, ?_⟩
  simp only
  have outer := for_loop_inv
    (fun k p => shape p img.width img.height ∧
      ∀ r c : Int, 0 ≤ r → r < img.width → 0 ≤ c → c < img.height →
        img.height - 1 - c < k →
        get_pixel p r c = get_pixel img.pixels (img.height - 1 - c) r)
    img.height
    (fun i p => for_loop img.width (fun j q =>
      set_pixel q j (img.height - 1 - i) (get_pixel img.pixels i j)) p) px
    ⟨hshape, by intro r c _ _ _ _ hlt; simp only [Nat.cast_zero] at hlt; omega⟩
    (by
      intro k p hk hP
      have inner := for_loop_inv
        (fun m q => shape q img.width img.height ∧
          ∀ r c : Int, 0 ≤ r → r < img.width → 0 ≤ c → c < img.height →
            (img.height - 1 - c < k ∨ (img.height - 1 - c = k ∧ r < m)) →
            get_pixel q r c = get_pixel img.pixels (img.height - 1 - c) r)
        img.width
        (fun j q => set_pixel q j (img.height - 1 - k) (get_pixel img.pixels k j)) p
        ⟨hP.1, by
          intro r c h1 h2 h3 h4 hor
          simp only [Nat.cast_zero] at hor
          exact hP.2 r c h1 h2 h3 h4 (by omega)⟩
        (by
          intro m q hm hQ
          refine ⟨shape_set_pixel hQ.1 _ _ _, ?_⟩
          intro r c h1 h2 h3 h4 hor
          rw [get_set_pixel hQ.1 _ _ _ r c h1 h2 h3 h4]
          by_cases hcell : (m : Int) = r ∧ img.height - 1 - (k : Int) = c
          · rw [if_pos hcell]
            have e1 : img.height - 1 - c = (k : Int) := by omega
            rw [e1, ← hcell.1]
          · rw [if_neg hcell]
            exact hQ.2 r c h1 h2 h3 h4 (by push_cast at hor; omega))
      refine ⟨inner.1, ?_⟩
      intro r c h1 h2 h3 h4 hlt
      exact inner.2 r c h1 h2 h3 h4 (by push_cast at hlt; omega))
  dsimp only at outer
  refine And.intro outer.1 ?_
  intro r c h1 h2 h3 h4
  exact outer.2 r c h1 h2 h3 h4 (by omega)

theorem rotate_90_counterclockwise_spec (junk : Nat → Nat → Pixel) (img : Image)
    (hv : img.valid) :
    ∃ out, rotate_90_counterclockwise junk img = some out ∧ out.width = img.height ∧
      out.height = img.width ∧ out.max_color = img.max_color ∧
      shape out.pixels img.width img.height ∧
      ∀ r c : Int, 0 ≤ r → r < img.width → 0 ≤ c → c < img.height →
        get_pixel out.pixels r c = get_pixel img.pixels c (img.width - 1 - r) := by
  obtain ⟨hw, hh, -, -⟩ := hv
  obtain ⟨px, hpx, hshape⟩ := allocate_pixels_ok junk img.height img.width (by omega) (by omega)
  unfold rotate_90_counterclockwise
  simp only [hpx]
  refine ⟨_, rfl, rfl, rfl, rfl, ?_⟩
  simp only
  have outer := for_loop_inv
    (fun k p => shape p img.width img.height ∧
      ∀ r c : Int, 0 ≤ r → r < img.width → 0 ≤ c → c < img.height →
        c < k → get_pixel p r c = get_pixel img.pixels c (img.width - 1 - r))
    img.height
    (fun i p => for_loop img.width (fun j q =>
      set_pixel q (img.width - 1 - j) i (get_pixel img.pixels i j)) p) px
    ⟨hshape, by intro r c _ _ _ _ hlt; simp only [Nat.cast_zero] at hlt; omega⟩
    (by
      intro k p hk hP
      have inner := for_loop_inv
        (fun m q => shape q img.width img.height ∧
          ∀ r c : Int, 0 ≤ r → r < img.width → 0 ≤ c → c < img.height →
            (c < k ∨ (c = k ∧ img.width - 1 - r < m)) →
            get_pixel q r c = get_pixel img.pixels c (img.width - 1 - r))
        img.width
        (fun j q => set_pixel q (img.width - 1 - j) k (get_pixel img.pixels k j)) p
        ⟨hP.1, by
          intro r c h1 h2 h3 h4 hor
          simp only [Nat.cast_zero] at hor
          exact hP.2 r c h1 h2 h3 h4 (by omega)⟩
        (by
          intro m q hm hQ
          refine ⟨shape_set_pixel hQ.1 _ _ _, ?_⟩
          intro r c h1 h2 h3 h4 hor
          rw [get_set_pixel hQ.1 _ _ _ r c h1 h2 h3 h4]
          by_cases hcell : img.width - 1 - (m : Int) = r ∧ (k : Int) = c
          · rw [if_pos hcell]
            have e1 : img.width - 1 - r = (m : Int) := by omega
            rw [e1, ← hcell.2]
          · rw [if_neg hcell]
            exact hQ.2 r c h1 h2 h3 h4 (by push_cast at hor; omega))
      refine ⟨inner.1, ?_⟩
      intro r c h1 h2 h3 h4 hlt
      exact inner.2 r c h1 h2 h3 h4 (by push_cast at hlt; omega))
  dsimp only at outer
  refine And.intro outer.1 ?_
  intro r c h1 h2 h3 h4
  exact outer.2 r c h1 h2 h3 h4 (by omega)

/-! ## The flips, cell by cell -/

theorem flip_horizontal_spec (img : Image) (hv : img.valid) :
    shape (flip_horizontal img).pixels img.height img.width ∧
      ∀ a b : Int, 0 ≤ a → a < img.height → 0 ≤ b → b < img.width →
        get_pixel (flip_horizontal img).pixels a b =
          get_pixel img.pixels a (img.width - 1 - b) := by
  obtain ⟨hw, hh, hlen, hrows⟩ := hv
  have hdiv : Int.tdiv img.width 2 = img.width / 2 := Int.tdiv_eq_ediv (by omega) (by omega)
  unfold flip_horizontal
  simp only
  have outer := for_loop_inv
    (fun k p => shape p img.height img.width ∧
      ∀ a b : Int, 0 ≤ a → a < img.height → 0 ≤ b → b < img.width →
        (a < k → get_pixel p a b = get_pixel img.pixels a (img.width - 1 - b)) ∧
        (¬ a < k → get_pixel p a b = get_pixel img.pixels a b))
    img.height
    (fun i p => for_loop (Int.tdiv img.width 2) (fun j q =>
      set_pixel (set_pixel q i j (get_pixel q i (img.width - 1 - j)))
        i (img.width - 1 - j) (get_pixel q i j)) p) img.pixels
    ⟨⟨hlen, hrows⟩, by
      intro a b _ _ _ _
      exact ⟨fun h => by simp only [Nat.cast_zero] at h; omega, fun _ => rfl⟩⟩
    (by
      intro k p hk hP
      have inner := for_loop_inv
        (fun m q => shape q img.height img.width ∧
          ∀ a b : Int, 0 ≤ a → a < img.height → 0 ≤ b → b < img.width →
            ((a < k ∨ (a = k ∧ (b < m ∨ img.width - 1 - m < b))) →
              get_pixel q a b = get_pixel img.pixels a (img.width - 1 - b)) ∧
            (¬ (a < k ∨ (a = k ∧ (b < m ∨ img.width - 1 - m < b))) →
              get_pixel q a b = get_pixel img.pixels a b))
        (Int.tdiv img.width 2)
        (fun j q => set_pixel (set_pixel q k j (get_pixel q k (img.width - 1 - j)))
          k (img.width - 1 - j) (get_pixel q k j)) p
        ⟨hP.1, by
          intro a b h1 h2 h3 h4
          simp only [Nat.cast_zero]
          exact ⟨fun h => (hP.2 a b h1 h2 h3 h4).1 (by omega),
            fun h => (hP.2 a b h1 h2 h3 h4).2 (by omega)⟩⟩
        (by
          intro m q hm hQ
          rw [hdiv] at hm
          have hs1 := shape_set_pixel hQ.1 k m (get_pixel q k (img.width - 1 - m))
          refine ⟨shape_set_pixel hs1 _ _ _, ?_⟩
          intro a b h1 h2 h3 h4
          rw [get_set_pixel hs1 _ _ _ a b h1 h2 h3 h4,
            get_set_pixel hQ.1 _ _ _ a b h1 h2 h3 h4]
          have hleft := (hQ.2 k m (by omega) hk (by omega) (by omega)).2 (by omega)
          have hright := (hQ.2 k (img.width - 1 - m) (by omega) hk (by omega) (by omega)).2
            (by omega)
          by_cases hc1 : (k : Int) = a ∧ img.width - 1 - (m : Int) = b
          · rw [if_pos hc1, hleft]
            obtain ⟨e1, e2⟩ := hc1
            have e3 : img.width - 1 - b = (m : Int) := by omega
            refine ⟨fun _ => by rw [e3, e1], fun h => by push_cast at h; omega⟩
          · rw [if_neg hc1]
            by_cases hc2 : (k : Int) = a ∧ (m : Int) = b
            · rw [if_pos hc2, hright]
              obtain ⟨e1, e2⟩ := hc2
              refine ⟨fun _ => by rw [← e2, e1], fun h => by push_cast at h; omega⟩
            · rw [if_neg hc2]
              exact ⟨fun h => (hQ.2 a b h1 h2 h3 h4).1 (by push_cast at h; omega),
                fun h => (hQ.2 a b h1 h2 h3 h4).2 (by push_cast at h ⊢; omega)⟩)
      dsimp only at inner ⊢
      rw [hdiv] at inner ⊢
      refine And.intro inner.1 ?_
      intro a b h1 h2 h3 h4
      by_cases hflip : a < k ∨ (a = k ∧ (b < ((img.width / 2).toNat : Int) ∨
          img.width - 1 - ((img.width / 2).toNat : Int) < b))
      · exact ⟨fun _ => (inner.2 a b h1 h2 h3 h4).1 hflip, fun h => by push_cast at h; omega⟩
      · have hmid := (inner.2 a b h1 h2 h3 h4).2 hflip
        refine ⟨fun h => ?_, fun h => by rw [hmid]⟩
        have e : img.width - 1 - b = b := by push_cast at h; omega
        rw [hmid, e])
  dsimp only at outer
  refine And.intro outer.1 ?_
  intro a b h1 h2 h3 h4
  exact (outer.2 a b h1 h2 h3 h4).1 (by omega)

theorem flip_vertical_spec (img : Image) (hv : img.valid) :
    shape (flip_vertical img).pixels img.height img.width ∧
      ∀ a b : Int, 0 ≤ a → a < img.height → 0 ≤ b → b < img.width →
        get_pixel (flip_vertical img).pixels a b =
          get_pixel img.pixels (img.height - 1 - a) b := by
  obtain ⟨hw, hh, hlen, hrows⟩ := hv
  have hdiv : Int.tdiv img.height 2 = img.height / 2 := Int.tdiv_eq_ediv (by omega) (by omega)
  unfold flip_vertical
  simp only
  rw [hdiv]
  have outer := for_loop_inv
    (fun k p => shape p img.height img.width ∧
      ∀ a b : Int, 0 ≤ a → a < img.height → 0 ≤ b → b < img.width →
        ((a < k ∨ img.height - 1 - k < a) →
          get_pixel p a b = get_pixel img.pixels (img.height - 1 - a) b) ∧
        (¬ (a < k ∨ img.height - 1 - k < a) → get_pixel p a b = get_pixel img.pixels a b))
    (img.height / 2)
    (fun i p => for_loop img.width (fun j q =>
      set_pixel (set_pixel q i j (get_pixel q (img.height - 1 - i) j))
        (img.height - 1 - i) j (get_pixel q i j)) p) img.pixels
    ⟨⟨hlen, hrows⟩, by
      intro a b _ _ _ _
      exact ⟨fun h => by simp only [Nat.cast_zero] at h; omega, fun _ => rfl⟩⟩
    (by
      intro k p hk hP
      have inner := for_loop_inv
        (fun m q => shape q img.height img.width ∧
          ∀ a b : Int, 0 ≤ a → a < img.height → 0 ≤ b → b < img.width →
            ((a < k ∨ img.height - 1 - k < a ∨
                ((a = k ∨ a = img.height - 1 - k) ∧ b < m)) →
              get_pixel q a b = get_pixel img.pixels (img.height - 1 - a) b) ∧
            (¬ (a < k ∨ img.height - 1 - k < a ∨
                ((a = k ∨ a = img.height - 1 - k) ∧ b < m)) →
              get_pixel q a b = get_pixel img.pixels a b))
        img.width
        (fun j q => set_pixel (set_pixel q k j (get_pixel q (img.height - 1 - k) j))
          (img.height - 1 - k) j (get_pixel q k j)) p
        ⟨hP.1, by
          intro a b h1 h2 h3 h4
          exact ⟨fun h => (hP.2 a b h1 h2 h3 h4).1 (by simp only [Nat.cast_zero] at h; omega),
            fun h => (hP.2 a b h1 h2 h3 h4).2 (by simp only [Nat.cast_zero] at h; omega)⟩⟩
        (by
          intro m q hm hQ
          have hs1 := shape_set_pixel hQ.1 k m (get_pixel q (img.height - 1 - k) m)
          refine ⟨shape_set_pixel hs1 _ _ _, ?_⟩
          intro a b h1 h2 h3 h4
          rw [get_set_pixel hs1 _ _ _ a b h1 h2 h3 h4,
            get_set_pixel hQ.1 _ _ _ a b h1 h2 h3 h4]
          have htop := (hQ.2 k m (by omega) (by omega) (by omega) hm).2 (by omega)
          have hbot := (hQ.2 (img.height - 1 - k) m (by omega) (by omega) (by omega) hm).2
            (by omega)
          by_cases hc1 : img.height - 1 - (k : Int) = a ∧ (m : Int) = b
          · rw [if_pos hc1, htop]
            obtain ⟨e1, e2⟩ := hc1
            have e3 : img.height - 1 - a = (k : Int) := by omega
            refine ⟨fun _ => by rw [e3, e2], fun h => by push_cast at h; omega⟩
          · rw [if_neg hc1]
            by_cases hc2 : (k : Int) = a ∧ (m : Int) = b
            · rw [if_pos hc2, hbot]
              obtain ⟨e1, e2⟩ := hc2
              refine ⟨fun _ => by rw [← e1, e2], fun h => by push_cast at h; omega⟩
            · rw [if_neg hc2]
              exact ⟨fun h => (hQ.2 a b h1 h2 h3 h4).1 (by push_cast at h; omega),
                fun h => (hQ.2 a b h1 h2 h3 h4).2 (by push_cast at h ⊢; omega)⟩)
      dsimp only at inner ⊢
      refine And.intro inner.1 ?_
      intro a b h1 h2 h3 h4
      exact ⟨fun h => (inner.2 a b h1 h2 h3 h4).1 (by push_cast at h; omega),
        fun h => (inner.2 a b h1 h2 h3 h4).2 (by push_cast at h; omega)⟩)
  dsimp only at outer
  refine And.intro outer.1 ?_
  intro a b h1 h2 h3 h4
  by_cases hflip : a < ((img.height / 2).toNat : Int) ∨
      img.height - 1 - ((img.height / 2).toNat : Int) < a
  · exact (outer.2 a b h1 h2 h3 h4).1 hflip
  · have hmid := (outer.2 a b h1 h2 h3 h4).2 hflip
    have e : img.height - 1 - a = a := by omega
    rw [hmid, e]

theorem flip_horizontal_valid (img : Image) (hv : img.valid) : (flip_horizontal img).valid := by
  have hs := (flip_horizontal_spec img hv).1
  exact ⟨hv.1, hv.2.1, hs.1, hs.2⟩

theorem flip_vertical_valid (img : Image) (hv : img.valid) : (flip_vertical img).valid := by
  have hs := (flip_vertical_spec img hv).1
  exact ⟨hv.1, hv.2.1, hs.1, hs.2⟩

theorem rotate_180_spec (img : Image) (hv : img.valid) :
    shape (rotate_180 img).pixels img.height img.width ∧
      ∀ a b : Int, 0 ≤ a → a < img.height → 0 ≤ b → b < img.width →
        get_pixel (rotate_180 img).pixels a b =
          get_pixel img.pixels (img.height - 1 - a) (img.width - 1 - b) := by
  have hh := flip_horizontal_spec img hv
  have hvv : shape (flip_vertical (flip_horizontal img)).pixels img.height img.width ∧
      ∀ a b : Int, 0 ≤ a → a < img.height → 0 ≤ b → b < img.width →
        get_pixel (flip_vertical (flip_horizontal img)).pixels a b =
          get_pixel (flip_horizontal img).pixels (img.height - 1 - a) b :=
    flip_vertical_spec (flip_horizontal img) (flip_horizontal_valid img hv)
  have hw1 := hv.1
  have hh1 := hv.2.1
  refine ⟨hvv.1, ?_⟩
  intro a b h1 h2 h3 h4
  have e := hvv.2 a b h1 h2 h3 h4
  unfold rotate_180
  rw [e]
  exact hh.2 _ b (by omega) (by omega) h3 h4

theorem image_eq {a b : Image} (hw : a.width = b.width) (hh : a.height = b.height)
    (hm : a.max_color = b.max_color) (hp : a.pixels = b.pixels) : a = b := by
  cases a
  cases b
  simp only at hw hh hm hp
  subst hw hh hm hp
  rfl

theorem valid_of_shape {img : Image} (hw : 1 ≤ img.width) (hh : 1 ≤ img.height)
    (hs : shape img.pixels img.height img.width) : img.valid :=
  ⟨hw, hh, hs.1, hs.2⟩

/-! ## Rotation by a quarter turn -/

/-- C2: for a grid of width W and height H, `rotate_90_clockwise` returns a grid
with W rows of H cells in which the cell at row r, column c is the input cell at
row H-1-c, column r (row r of the output is column r of the input read from
the bottom up); the returned grid is the same whatever the allocated storage
held before, so every cell of it is determined by the input. -/
theorem rotate_90_clockwise_reads_columns_bottom_up (img : Image) (hv : img.valid) :
    ∃ out, (∀ junk, rotate_90_clockwise junk img = some out) ∧
      shape out.pixels img.width img.height ∧
      ∀ r c : Nat, (r : Int) < img.width → (c : Int) < img.height →
        get_pixel out.pixels r c = get_pixel img.pixels (img.height - 1 - c) r := by
  obtain ⟨out, hout, hw, hh, hm, hs, hget⟩ := rotate_90_clockwise_spec zero_junk img hv
  refine ⟨out, ?_, hs, fun r c hr hc => hget r c (by omega) hr (by omega) hc⟩
  intro junk
  obtain ⟨out2, hout2, hw2, hh2, hm2, hs2, hget2⟩ := rotate_90_clockwise_spec junk img hv
  rw [hout2]
  congr 1
  apply image_eq (by rw [hw, hw2]) (by rw [hh, hh2]) (by rw [hm, hm2])
  apply grid_ext hs2 hs
  intro a b ha hb
  rw [hget2 a b (by omega) ha (by omega) hb, hget a b (by omega) ha (by omega) hb]

theorem rotate_90_clockwise_reads_columns_bottom_up_witness :
    scenario_2x1.valid ∧
    ∃ out, (∀ junk, rotate_90_clockwise junk scenario_2x1 = some out) ∧
      shape out.pixels scenario_2x1.width scenario_2x1.height ∧
      ∀ r c : Nat, (r : Int) < scenario_2x1.width → (c : Int) < scenario_2x1.height →
        get_pixel out.pixels r c =
          get_pixel scenario_2x1.pixels (scenario_2x1.height - 1 - c) r :=
  ⟨by decide, rotate_90_clockwise_reads_columns_bottom_up scenario_2x1 (by decide)⟩

/-- C3, as stated, fails: on the grid of width 1 and height 2 the source pixel at
(row 0, col 0) is not at (row 0, col width-1-0) of the rotated grid when width is
the width of the source. -/
theorem rotate_90_clockwise_source_width_counterexample :
    ∃ out, rotate_90_clockwise zero_junk tall_1x2 = some out ∧
      get_pixel out.pixels 0 (tall_1x2.width - 1 - 0) ≠ get_pixel tall_1x2.pixels 0 0 :=
  ⟨_, rfl, by decide⟩

/-- C3, amended: `rotate_90_clockwise` places the source pixel at (row i, col j)
at destination (row j, col H-1-i), where H is the height of the source, which is
the width of the rotated grid. -/
theorem rotate_90_clockwise_mapping (junk : Nat → Nat → Pixel) (img : Image)
    (hv : img.valid) :
    ∃ out, rotate_90_clockwise junk img = some out ∧ out.width = img.height ∧
      ∀ i j : Nat, (i : Int) < img.height → (j : Int) < img.width →
        get_pixel out.pixels j (out.width - 1 - i) = get_pixel img.pixels i j := by
  obtain ⟨out, hout, hw, hh, hm, hs, hget⟩ := rotate_90_clockwise_spec junk img hv
  refine ⟨out, hout, hw, ?_⟩
  intro i j hi hj
  rw [hw, hget j (img.height - 1 - i) (by omega) hj (by omega) (by omega)]
  have e : img.height - 1 - (img.height - 1 - (i : Int)) = i := by omega
  rw [e]

theorem rotate_90_clockwise_mapping_witness :
    tall_1x2.valid ∧
    ∃ out, rotate_90_clockwise zero_junk tall_1x2 = some out ∧ out.width = tall_1x2.height ∧
      ∀ i j : Nat, (i : Int) < tall_1x2.height → (j : Int) < tall_1x2.width →
        get_pixel out.pixels j (out.width - 1 - i) = get_pixel tall_1x2.pixels i j :=
  ⟨by decide, rotate_90_clockwise_mapping zero_junk tall_1x2 (by decide)⟩

/-- C4, as stated, fails: on the grid of width 2 and height 1 the source pixel at
(0, 0) is not at (row height-1-0, col 0) of the rotated grid when height is the
height of the source. -/
theorem rotate_90_counterclockwise_source_height_counterexample :
    ∃ out, rotate_90_counterclockwise zero_junk scenario_2x1 = some out ∧
      get_pixel out.pixels (scenario_2x1.height - 1 - 0) 0 ≠
        get_pixel scenario_2x1.pixels 0 0 :=
  ⟨_, rfl, by decide⟩

/-- C4, amended: `rotate_90_counterclockwise` places the source pixel at (i, j)
at destination (row W-1-j, col i), where W is the width of the source, which is
the height of the rotated grid. -/
theorem rotate_90_counterclockwise_mapping (junk : Nat → Nat → Pixel) (img : Image)
    (hv : img.valid) :
    ∃ out, rotate_90_counterclockwise junk img = some out ∧ out.height = img.width ∧
      ∀ i j : Nat, (i : Int) < img.height → (j : Int) < img.width →
        get_pixel out.pixels (out.height - 1 - j) i = get_pixel img.pixels i j := by
  obtain ⟨out, hout, hw, hh, hm, hs, hget⟩ := rotate_90_counterclockwise_spec junk img hv
  refine ⟨out, hout, hh, ?_⟩
  intro i j hi hj
  rw [hh, hget (img.width - 1 - j) i (by omega) (by omega) (by omega) hi]
  have e : img.width - 1 - (img.width - 1 - (j : Int)) = j := by omega
  rw [e]

theorem rotate_90_counterclockwise_mapping_witness :
    scenario_2x1.valid ∧
    ∃ out, rotate_90_counterclockwise zero_junk scenario_2x1 = some out ∧
      out.height = scenario_2x1.width ∧
      ∀ i j : Nat, (i : Int) < scenario_2x1.height → (j : Int) < scenario_2x1.width →
        get_pixel out.pixels (out.height - 1 - j) i = get_pixel scenario_2x1.pixels i j :=
  ⟨by decide, rotate_90_counterclockwise_mapping zero_junk scenario_2x1 (by decide)⟩

/-- C5, as stated, fails: on the grid of width 2 and height 1 with pixels
[(10,20,30), (40,50,60)] the top cell of the clockwise rotation is not
(40,50,60). -/
theorem rotate_90_clockwise_scenario_counterexample :
    ∃ out, rotate_90_clockwise zero_junk scenario_2x1 = some out ∧
      ¬ (get_pixel out.pixels 0 0 = ⟨40, 50, 60⟩ ∧ get_pixel out.pixels 1 0 = ⟨10, 20, 30⟩) :=
  ⟨_, rfl, by decide⟩

/-- C5, amended: on the grid of width 2, height 1, max_color 255 with pixels
[(10,20,30), (40,50,60)], `rotate_90_clockwise` returns the grid of width 1,
height 2, max_color 255 whose pixels read from the top are
[(10,20,30), (40,50,60)]. -/
theorem rotate_90_clockwise_scenario (junk : Nat → Nat → Pixel) :
    rotate_90_clockwise junk scenario_2x1 =
      some { width := 1, height := 2, max_color := 255,
             pixels := [[⟨10, 20, 30⟩], [⟨40, 50, 60⟩]] } := by
  rfl

theorem rotate_cw_then_ccw (junk1 junk2 : Nat → Nat → Pixel) (img : Image) (hv : img.valid) :
    (rotate_90_clockwise junk1 img).bind (rotate_90_counterclockwise junk2) = some img := by
  obtain ⟨o1, ho1, hw1, hh1, hm1, hs1, hg1⟩ := rotate_90_clockwise_spec junk1 img hv
  have hv1 : o1.valid :=
    valid_of_shape (by rw [hw1]; exact hv.2.1) (by rw [hh1]; exact hv.1) (by rw [hw1, hh1]; exact hs1)
  obtain ⟨o2, ho2, hw2, hh2, hm2, hs2, hg2⟩ := rotate_90_counterclockwise_spec junk2 o1 hv1
  rw [ho1, Option.some_bind, ho2]
  congr 1
  have hW := hv.1
  have hH := hv.2.1
  rw [hw1, hh1] at hs2 hg2
  apply image_eq (by rw [hw2, hh1]) (by rw [hh2, hw1]) (by rw [hm2, hm1])
  apply grid_ext hs2 ⟨hv.2.2.1, hv.2.2.2⟩
  intro a b ha hb
  rw [hg2 a b (by omega) ha (by omega) hb,
    hg1 b (img.height - 1 - a) (by omega) hb (by omega) (by omega)]
  have e : img.height - 1 - (img.height - 1 - (a : Int)) = a := by omega
  rw [e]

theorem rotate_ccw_then_cw (junk1 junk2 : Nat → Nat → Pixel) (img : Image) (hv : img.valid) :
    (rotate_90_counterclockwise junk1 img).bind (rotate_90_clockwise junk2) = some img := by
  obtain ⟨o1, ho1, hw1, hh1, hm1, hs1, hg1⟩ := rotate_90_counterclockwise_spec junk1 img hv
  have hv1 : o1.valid :=
    valid_of_shape (by rw [hw1]; exact hv.2.1) (by rw [hh1]; exact hv.1) (by rw [hw1, hh1]; exact hs1)
  obtain ⟨o2, ho2, hw2, hh2, hm2, hs2, hg2⟩ := rotate_90_clockwise_spec junk2 o1 hv1
  rw [ho1, Option.some_bind, ho2]
  congr 1
  have hW := hv.1
  have hH := hv.2.1
  rw [hw1, hh1] at hs2 hg2
  apply image_eq (by rw [hw2, hh1]) (by rw [hh2, hw1]) (by rw [hm2, hm1])
  apply grid_ext hs2 ⟨hv.2.2.1, hv.2.2.2⟩
  intro a b ha hb
  rw [hg2 a b (by omega) ha (by omega) hb,
    hg1 (img.width - 1 - b) a (by omega) (by omega) (by omega) ha]
  have e : img.width - 1 - (img.width - 1 - (b : Int)) = b := by omega
  rw [e]

/-- C6: for every grid g, rotating clockwise and then counterclockwise, and
rotating counterclockwise and then clockwise, both return g itself: the same
width, height, max_color and pixels. -/
theorem rotate_90_inverse_pair (junk1 junk2 : Nat → Nat → Pixel) (img : Image)
    (hv : img.valid) :
    (rotate_90_clockwise junk1 img).bind (rotate_90_counterclockwise junk2) = some img ∧
    (rotate_90_counterclockwise junk1 img).bind (rotate_90_clockwise junk2) = some img :=
  ⟨rotate_cw_then_ccw junk1 junk2 img hv, rotate_ccw_then_cw junk1 junk2 img hv⟩

theorem rotate_90_inverse_pair_witness :
    tall_1x2.valid ∧
    (rotate_90_clockwise zero_junk tall_1x2).bind (rotate_90_counterclockwise zero_junk) =
      some tall_1x2 ∧
    (rotate_90_counterclockwise zero_junk tall_1x2).bind (rotate_90_clockwise zero_junk) =
      some tall_1x2 :=
  ⟨by decide, rotate_90_inverse_pair zero_junk zero_junk tall_1x2 (by decide)⟩

/-- C7: for every grid g, square or not, two clockwise quarter turns return the
grid that `rotate_180` produces from g: the same width, height, max_color and
the same pixel at every position. -/
theorem rotate_180_eq_rotate_90_twice (junk1 junk2 : Nat → Nat → Pixel) (img : Image)
    (hv : img.valid) :
    (rotate_90_clockwise junk1 img).bind (rotate_90_clockwise junk2) =
      some (rotate_180 img) := by
  obtain ⟨o1, ho1, hw1, hh1, hm1, hs1, hg1⟩ := rotate_90_clockwise_spec junk1 img hv
  have hv1 : o1.valid :=
    valid_of_shape (by rw [hw1]; exact hv.2.1) (by rw [hh1]; exact hv.1) (by rw [hw1, hh1]; exact hs1)
  obtain ⟨o2, ho2, hw2, hh2, hm2, hs2, hg2⟩ := rotate_90_clockwise_spec junk2 o1 hv1
  obtain ⟨hs3, hg3⟩ := rotate_180_spec img hv
  rw [ho1, Option.some_bind, ho2]
  congr 1
  have hW := hv.1
  have hH := hv.2.1
  rw [hw1, hh1] at hs2 hg2
  apply image_eq (a := o2) (b := rotate_180 img) (by rw [hw2, hh1]; rfl) (by rw [hh2, hw1]; rfl)
    (by rw [hm2, hm1]; rfl)
  apply grid_ext hs2 hs3
  intro a b ha hb
  rw [hg2 a b (by omega) ha (by omega) hb,
    hg1 (img.width - 1 - b) a (by omega) (by omega) (by omega) ha,
    hg3 a b (by omega) ha (by omega) hb]

theorem rotate_180_eq_rotate_90_twice_witness :
    tall_1x2.valid ∧
    (rotate_90_clockwise zero_junk tall_1x2).bind (rotate_90_clockwise zero_junk) =
      some (rotate_180 tall_1x2) :=
  ⟨by decide, rotate_180_eq_rotate_90_twice zero_junk zero_junk tall_1x2 (by decide)⟩

/-- C8: for every grid of width W, height H and max_color M, both
`rotate_90_clockwise` and `rotate_90_counterclockwise` return a grid of width
H and height W, with W rows of exactly H pixels each, and max_color M. -/
theorem rotate_90_swaps_dimensions (junk : Nat → Nat → Pixel) (img : Image)
    (hv : img.valid) :
    (∃ out, rotate_90_clockwise junk img = some out ∧ out.width = img.height ∧
      out.height = img.width ∧ out.max_color = img.max_color ∧
      out.pixels.length = img.width.toNat ∧
      ∀ row ∈ out.pixels, row.length = img.height.toNat) ∧
    (∃ out, rotate_90_counterclockwise junk img = some out ∧ out.width = img.height ∧
      out.height = img.width ∧ out.max_color = img.max_color ∧
      out.pixels.length = img.width.toNat ∧
      ∀ row ∈ out.pixels, row.length = img.height.toNat) := by
  obtain ⟨o1, ho1, hw1, hh1, hm1, hs1, -⟩ := rotate_90_clockwise_spec junk img hv
  obtain ⟨o2, ho2, hw2, hh2, hm2, hs2, -⟩ := rotate_90_counterclockwise_spec junk img hv
  exact ⟨⟨o1, ho1, hw1, hh1, hm1, hs1.1, hs1.2⟩, ⟨o2, ho2, hw2, hh2, hm2, hs2.1, hs2.2⟩⟩

theorem rotate_90_swaps_dimensions_witness :
    scenario_2x1.valid ∧
    (∃ out, rotate_90_clockwise zero_junk scenario_2x1 = some out ∧
      out.width = scenario_2x1.height ∧ out.height = scenario_2x1.width ∧
      out.max_color = scenario_2x1.max_color ∧
      out.pixels.length = scenario_2x1.width.toNat ∧
      ∀ row ∈ out.pixels, row.length = scenario_2x1.height.toNat) ∧
    (∃ out, rotate_90_counterclockwise zero_junk scenario_2x1 = some out ∧
      out.width = scenario_2x1.height ∧ out.height = scenario_2x1.width ∧
      out.max_color = scenario_2x1.max_color ∧
      out.pixels.length = scenario_2x1.width.toNat ∧
      ∀ row ∈ out.pixels, row.length = scenario_2x1.height.toNat) :=
  ⟨by decide, rotate_90_swaps_dimensions zero_junk scenario_2x1 (by decide)⟩

/-! ## Scanning and printing decimal numbers -/

theorem isspace_lt {c : Nat} (h : isspace c = true) : c < 256 := by
  simp only [isspace, Bool.or_eq_true, beq_iff_eq, Bool.and_eq_true, decide_eq_true_eq] at h
  omega

theorem isspace_not_digit {c : Nat} (h : isspace c = true) : isdigit c = false := by
  simp only [isspace, Bool.or_eq_true, beq_iff_eq, Bool.and_eq_true, decide_eq_true_eq] at h
  simp only [isdigit, Bool.and_eq_false_imp, decide_eq_true_eq, decide_eq_false_iff_not]
  omega

theorem isdigit_not_space {c : Nat} (h : isdigit c = true) : isspace c = false := by
  simp only [isdigit, Bool.and_eq_true, decide_eq_true_eq] at h
  simp only [isspace, Bool.or_eq_false_iff, beq_eq_false_iff_ne, Bool.and_eq_false_imp,
    decide_eq_true_eq, decide_eq_false_iff_not]
  omega

theorem skip_space_append (ws rest : List Nat) (h : ∀ c ∈ ws, isspace c = true) :
    skip_space (ws ++ rest) = skip_space rest := by
  induction ws with
  | nil => rfl
  | cons c cs ih =>
    rw [List.cons_append, skip_space, if_pos (h c (List.mem_cons_self _ _))]
    exact ih (fun x hx => h x (List.mem_cons_of_mem _ hx))

theorem skip_space_cons (c : Nat) (cs : List Nat) (h : isspace c = false) :
    skip_space (c :: cs) = c :: cs := by
  rw [skip_space, if_neg (by simp [h])]

theorem scan_digits_append (ds rest : List Nat) (acc n : Nat)
    (h : ∀ c ∈ ds, isdigit c = true) :
    scan_digits (ds ++ rest) acc n =
      scan_digits rest (ds.foldl (fun a c => a * 10 + (c - 48)) acc) (n + ds.length) := by
  induction ds generalizing acc n with
  | nil => rfl
  | cons c cs ih =>
    rw [List.cons_append, scan_digits, if_pos (h c (List.mem_cons_self _ _)),
      ih _ _ (fun x hx => h x (List.mem_cons_of_mem _ hx))]
    simp only [List.foldl_cons, List.length_cons]
    congr 1
    omega

theorem scan_digits_stop (c : Nat) (cs : List Nat) (acc n : Nat) (h : isdigit c = false) :
    scan_digits (c :: cs) acc n = (acc, n, c :: cs) := by
  rw [scan_digits, if_neg (by simp [h])]

theorem print_digits_acc (fuel n : Nat) (acc : List Nat) :
    print_digits fuel n acc = print_digits fuel n [] ++ acc := by
  induction fuel generalizing n acc with
  | zero => rfl
  | succ f ih =>
    simp only [print_digits]
    split
    · rfl
    · rw [ih (n / 10) ((48 + n % 10) :: acc), ih (n / 10) [48 + n % 10]]
      simp

theorem print_digits_spec (fuel n : Nat) (h : n < fuel) :
    (∀ c ∈ print_digits fuel n [], isdigit c = true) ∧
    (print_digits fuel n []).foldl (fun a c => a * 10 + (c - 48)) 0 = n ∧
    print_digits fuel n [] ≠ [] := by
  induction fuel generalizing n with
  | zero => omega
  | succ f ih =>
    simp only [print_digits]
    by_cases hn : n < 10
    · rw [if_pos hn]
      refine ⟨?_, by simp, by simp⟩
      intro c hc
      simp only [List.mem_singleton] at hc
      subst hc
      simp only [isdigit, Bool.and_eq_true, decide_eq_true_eq]
      omega
    · rw [if_neg hn, print_digits_acc]
      obtain ⟨h1, h2, h3⟩ := ih (n / 10) (by omega)
      refine ⟨?_, ?_, by simp⟩
      · intro c hc
        rw [List.mem_append, List.mem_singleton] at hc
        rcases hc with hc | hc
        · exact h1 c hc
        · subst hc
          simp only [isdigit, Bool.and_eq_true, decide_eq_true_eq]
          omega
      · rw [List.foldl_append, h2]
        simp only [List.foldl_cons, List.foldl_nil]
        omega

theorem scan_int_print_int (v : Int) (ws : List Nat) (c : Nat) (rest : List Nat)
    (hws : ∀ x ∈ ws, isspace x = true) (hc : isdigit c = false) :
    scan_int (ws ++ print_int v ++ c :: rest) = some (store_int v, c :: rest) := by
  obtain ⟨hdig, hval, hne⟩ := print_digits_spec (v.natAbs + 1) v.natAbs (by omega)
  obtain ⟨d, ds, hds⟩ := List.exists_cons_of_ne_nil hne
  have hd : isdigit d = true := hdig d (by rw [hds]; exact List.mem_cons_self _ _)
  have hd' := hd
  simp only [isdigit, Bool.and_eq_true, decide_eq_true_eq] at hd'
  have hscan : scan_digits (print_digits (v.natAbs + 1) v.natAbs [] ++ c :: rest) 0 0 =
      (v.natAbs, (print_digits (v.natAbs + 1) v.natAbs []).length, c :: rest) := by
    rw [scan_digits_append _ _ _ _ hdig, hval, scan_digits_stop _ _ _ _ hc, Nat.zero_add]
  have hlen : (print_digits (v.natAbs + 1) v.natAbs []).length ≠ 0 := by
    rw [hds]; simp
  unfold scan_int
  rw [List.append_assoc, skip_space_append _ _ hws]
  by_cases hneg : v < 0
  · have hp : print_int v = 45 :: print_digits (v.natAbs + 1) v.natAbs [] := by
      unfold print_int; rw [if_pos hneg]
    rw [hp, List.cons_append, skip_space_cons _ _ (by decide)]
    simp only [if_true, hscan, if_neg hlen]
    congr 3
    omega
  · have hp : print_int v = print_digits (v.natAbs + 1) v.natAbs [] := by
      unfold print_int; rw [if_neg hneg]
    rw [hp]
    have hskip : skip_space (print_digits (v.natAbs + 1) v.natAbs [] ++ c :: rest) =
        d :: (ds ++ c :: rest) := by
      rw [hds, List.cons_append, skip_space_cons _ _ (isdigit_not_space hd)]
    rw [hskip]
    have e : d :: (ds ++ c :: rest) =
        print_digits (v.natAbs + 1) v.natAbs [] ++ c :: rest := by rw [hds]; rfl
    simp only [if_neg (show ¬ d = 45 by omega), if_neg (show ¬ d = 43 by omega)]
    rw [e, hscan]
    simp only [if_neg hlen]
    congr 3
    omega

theorem skip_space_print_int (v : Int) (rest : List Nat) :
    skip_space (print_int v ++ rest) = print_int v ++ rest := by
  obtain ⟨hdig, -, hne⟩ := print_digits_spec (v.natAbs + 1) v.natAbs (by omega)
  obtain ⟨d, ds, hds⟩ := List.exists_cons_of_ne_nil hne
  have hd : isdigit d = true := hdig d (by rw [hds]; exact List.mem_cons_self _ _)
  unfold print_int
  split
  · rw [List.cons_append, skip_space_cons _ _ (by decide)]
  · rw [hds, List.cons_append, skip_space_cons _ _ (isdigit_not_space hd)]

theorem scan_header_p6 (w h m : Int) (ws1 ws2 ws3 : List Nat) (sep : Nat) (data : List Nat)
    (h1 : ∀ x ∈ ws1, isspace x = true)
    (h2 : ws2 ≠ [] ∧ ∀ x ∈ ws2, isspace x = true)
    (h3 : ws3 ≠ [] ∧ ∀ x ∈ ws3, isspace x = true) (hsep : isdigit sep = false) :
    scan_header (ws1 ++ print_int w ++ ws2 ++ print_int h ++ ws3 ++ print_int m ++ sep :: data) =
      some (store_int w, store_int h, store_int m, sep :: data) := by
  obtain ⟨c2, r2, e2⟩ := List.exists_cons_of_ne_nil h2.1
  obtain ⟨c3, r3, e3⟩ := List.exists_cons_of_ne_nil h3.1
  have hc2 : isdigit c2 = false :=
    isspace_not_digit (h2.2 c2 (by rw [e2]; exact List.mem_cons_self _ _))
  have hc3 : isdigit c3 = false :=
    isspace_not_digit (h3.2 c3 (by rw [e3]; exact List.mem_cons_self _ _))
  have s1 : scan_int
      (ws1 ++ print_int w ++ ws2 ++ print_int h ++ ws3 ++ print_int m ++ sep :: data) =
      some (store_int w, ws2 ++ (print_int h ++ (ws3 ++ (print_int m ++ sep :: data)))) := by
    have := scan_int_print_int w ws1 c2 (r2 ++ (print_int h ++ (ws3 ++ (print_int m ++ sep :: data))))
      h1 hc2
    rw [e2]
    simp only [List.append_assoc, List.cons_append] at this ⊢
    exact this
  have s2 : scan_int (skip_space (ws2 ++ (print_int h ++ (ws3 ++ (print_int m ++ sep :: data))))) =
      some (store_int h, ws3 ++ (print_int m ++ sep :: data)) := by
    rw [skip_space_append _ _ h2.2, skip_space_print_int]
    have := scan_int_print_int h [] c3 (r3 ++ (print_int m ++ sep :: data)) (by simp) hc3
    rw [e3]
    simp only [List.append_assoc, List.cons_append, List.nil_append] at this ⊢
    exact this
  have s3 : scan_int (skip_space (ws3 ++ (print_int m ++ sep :: data))) =
      some (store_int m, sep :: data) := by
    rw [skip_space_append _ _ h3.2, skip_space_print_int]
    have := scan_int_print_int m [] sep data (by simp) hsep
    simp only [List.append_assoc, List.cons_append, List.nil_append] at this ⊢
    exact this
  unfold scan_header
  rw [s1]
  simp only [s2, s3]

/-! ## The pixel loops of the codec -/

theorem to_uchar_cast (x : Nat) (h : x < 256) : to_uchar (x : Int) = x := by
  unfold to_uchar
  omega

theorem getD_lt_of_bytes (data : List Nat) (hb : ∀ x ∈ data, x < 256) (n : Nat) :
    data.getD n 0 < 256 := by
  by_cases h : n < data.length
  · rw [List.getD_eq_getElem _ _ h]
    exact hb _ (List.getElem_mem h)
  · rw [List.getD_eq_default _ _ (by omega)]
    omega

theorem fgetc_drop (data : List Nat) (n : Nat) (h : n < data.length) :
    fgetc (data.drop n) = (((data.getD n 0 : Nat) : Int), data.drop (n + 1)) := by
  rw [List.drop_eq_getElem_cons h, List.getD_eq_getElem _ _ h]
  rfl

theorem read_cell_drop (px : List (List Pixel)) (i j : Int) (data : List Nat) (n : Nat)
    (h : n + 3 ≤ data.length) (hb : ∀ x ∈ data, x < 256) :
    read_cell px i j (data.drop n) = (set_pixel px i j (pixel_at data n), data.drop (n + 3)) := by
  unfold read_cell
  rw [fgetc_drop data n (by omega)]
  simp only
  rw [fgetc_drop data (n + 1) (by omega)]
  simp only
  rw [fgetc_drop data (n + 2) (by omega)]
  simp only [to_uchar_cast _ (getD_lt_of_bytes data hb _), pixel_at]

theorem take_three (data : List Nat) (n : Nat) (h : n + 3 ≤ data.length) :
    data.take (n + 3) =
      data.take n ++ [data.getD n 0, data.getD (n + 1) 0, data.getD (n + 2) 0] := by
  have e1 : data.take (n + 1) = data.take n ++ [data.getD n 0] := by
    rw [List.take_succ, List.getElem?_eq_getElem (by omega), List.getD_eq_getElem _ _ (by omega)]
    rfl
  have e2 : data.take (n + 2) = data.take (n + 1) ++ [data.getD (n + 1) 0] := by
    rw [List.take_succ, List.getElem?_eq_getElem (by omega), List.getD_eq_getElem _ _ (by omega)]
    rfl
  have e3 : data.take (n + 3) = data.take (n + 2) ++ [data.getD (n + 2) 0] := by
    rw [List.take_succ, List.getElem?_eq_getElem (by omega), List.getD_eq_getElem _ _ (by omega)]
    rfl
  rw [e3, e2, e1]
  simp

theorem cell_offset_bound (W H k m : Nat) (hk : k < H) (hm : m < W) :
    3 * (W * k + m) + 3 ≤ 3 * W * H := by
  have h1 : W * (k + 1) ≤ W * H := Nat.mul_le_mul_left W (by omega)
  have h2 : W * (k + 1) = W * k + W := by ring
  have h3 : 3 * W * H = 3 * (W * H) := by ring
  omega

theorem read_pixels_spec (W H : Nat) (px : List (List Pixel)) (data : List Nat)
    (hs : shape px H W) (hD : data.length = 3 * W * H) (hb : ∀ x ∈ data, x < 256) :
    shape (read_pixels W H px data).1 H W ∧
      ∀ a b : Nat, a < H → b < W →
        get_pixel (read_pixels W H px data).1 a b = pixel_at data (3 * (W * a + b)) := by
  unfold read_pixels
  have outer := for_loop_inv
    (fun k (st : List (List Pixel) × List Nat) => shape st.1 H W ∧
      st.2 = data.drop (3 * (W * k)) ∧
      ∀ a b : Nat, a < H → b < W → a < k →
        get_pixel st.1 a b = pixel_at data (3 * (W * a + b)))
    (H : Int)
    (fun i st => for_loop (W : Int) (fun j st1 => read_cell st1.1 i j st1.2) st) (px, data)
    ⟨hs, by simp, by intro a b _ _ h; omega⟩
    (by
      intro k st hk hP
      have hkH : k < H := by omega
      have inner := for_loop_inv
        (fun m (st1 : List (List Pixel) × List Nat) => shape st1.1 H W ∧
          st1.2 = data.drop (3 * (W * k + m)) ∧
          ∀ a b : Nat, a < H → b < W → (a < k ∨ (a = k ∧ b < m)) →
            get_pixel st1.1 a b = pixel_at data (3 * (W * a + b)))
        (W : Int)
        (fun j st1 => read_cell st1.1 k j st1.2) st
        ⟨hP.1, by rw [hP.2.1]; rfl, by
          intro a b h1 h2 hor
          exact hP.2.2 a b h1 h2 (by omega)⟩
        (by
          intro m st1 hm hQ
          have hmW : m < W := by omega
          have hbound := cell_offset_bound W H k m hkH hmW
          dsimp only
          rw [hQ.2.1, read_cell_drop _ _ _ _ _ (by omega) hb]
          dsimp only
          refine ⟨shape_set_pixel hQ.1 _ _ _, rfl, ?_⟩
          intro a b h1 h2 hor
          rw [get_set_pixel hQ.1 _ _ _ a b (by omega) (by omega) (by omega) (by omega)]
          by_cases hcell : (k : Int) = a ∧ (m : Int) = b
          · rw [if_pos hcell]
            have e1 : k = a := by omega
            have e2 : m = b := by omega
            rw [e1, e2]
          · rw [if_neg hcell]
            exact hQ.2.2 a b h1 h2 (by omega))
      dsimp only at inner ⊢
      rw [Int.toNat_ofNat] at inner
      refine ⟨inner.1, ?_, ?_⟩
      · rw [inner.2.1]
        congr 1
      · intro a b h1 h2 hlt
        exact inner.2.2 a b h1 h2 (by omega))
  dsimp only at outer
  rw [Int.toNat_ofNat] at outer
  exact ⟨outer.1, fun a b h1 h2 => outer.2.2 a b h1 h2 h1⟩

theorem write_pixels_spec (W H : Nat) (px : List (List Pixel)) (data header : List Nat)
    (hD : data.length = 3 * W * H) (hb : ∀ x ∈ data, x < 256)
    (hget : ∀ a b : Nat, a < H → b < W →
      get_pixel px a b = pixel_at data (3 * (W * a + b))) :
    for_loop (H : Int) (fun i out =>
      for_loop (W : Int) (fun j o =>
        fputc (get_pixel px i j).b (fputc (get_pixel px i j).g (fputc (get_pixel px i j).r o)))
        out) header = header ++ data := by
  have outer := for_loop_inv
    (fun k (out : List Nat) => out = header ++ data.take (3 * (W * k)))
    (H : Int)
    (fun i out =>
      for_loop (W : Int) (fun j o =>
        fputc (get_pixel px i j).b (fputc (get_pixel px i j).g (fputc (get_pixel px i j).r o)))
        out) header
    (by simp)
    (by
      intro k out hk hP
      have hkH : k < H := by omega
      have inner := for_loop_inv
        (fun m (o : List Nat) => o = header ++ data.take (3 * (W * k + m)))
        (W : Int)
        (fun j o =>
          fputc (get_pixel px k j).b (fputc (get_pixel px k j).g (fputc (get_pixel px k j).r o)))
        out
        (by rw [hP]; rfl)
        (by
          intro m o hm hQ
          have hmW : m < W := by omega
          have hbound := cell_offset_bound W H k m hkH hmW
          dsimp only
          rw [hget k m hkH hmW, hQ]
          have e : 3 * (W * k + (m + 1)) = 3 * (W * k + m) + 3 := by ring
          rw [e, take_three _ _ (by omega)]
          simp only [fputc, pixel_at, Nat.mod_eq_of_lt (getD_lt_of_bytes data hb _),
            List.append_assoc, List.singleton_append, List.cons_append, List.nil_append])
      dsimp only at inner ⊢
      rw [Int.toNat_ofNat] at inner
      rw [inner, Nat.mul_succ])
  dsimp only at outer
  rw [Int.toNat_ofNat] at outer
  rw [outer, List.take_of_length_le (by rw [hD]; exact le_of_eq (by ring))]

/-! ## Decoding a P6 buffer -/

theorem print_int_head (v : Int) :
    ∃ d ds, print_int v = d :: ds ∧ d ≠ 35 ∧ d < 256 := by
  obtain ⟨hdig, -, hne⟩ := print_digits_spec (v.natAbs + 1) v.natAbs (by omega)
  obtain ⟨d, ds, hds⟩ := List.exists_cons_of_ne_nil hne
  have hd : isdigit d = true := hdig d (by rw [hds]; exact List.mem_cons_self _ _)
  simp only [isdigit, Bool.and_eq_true, decide_eq_true_eq] at hd
  unfold print_int
  split
  · exact ⟨45, _, rfl, by omega, by omega⟩
  · exact ⟨d, ds, hds, by omega, by omega⟩

theorem store_int_of_range (v : Int) (h0 : -(2 : Int) ^ 31 ≤ v) (h1 : v < (2 : Int) ^ 31) :
    store_int v = v := by
  unfold store_int
  norm_num at h0 h1 ⊢
  rw [min_eq_left (by omega), max_eq_right (by omega)]
  omega

theorem skip_comments_no_comment (fuel : Nat) (c : Int) (s : List Nat) (h : c ≠ 35) :
    skip_comments (fuel + 1) c s = some (c, s) := by
  rw [skip_comments, if_neg h]

theorem read_ppm_p6_buffer (junk : Nat → Nat → Pixel) (fuel : Nat) (w h m : Int)
    (ws1 ws2 ws3 : List Nat) (sep : Nat) (data : List Nat)
    (h1 : ∀ x ∈ ws1, isspace x = true)
    (h2 : ws2 ≠ [] ∧ ∀ x ∈ ws2, isspace x = true)
    (h3 : ws3 ≠ [] ∧ ∀ x ∈ ws3, isspace x = true) (hsep : isspace sep = true) :
    read_ppm junk (fuel + 1) (p6_buffer ws1 w ws2 h ws3 m sep data) =
      match allocate_pixels junk (store_int w) (store_int h) with
      | none => some ReadResult.alloc_failed
      | some px =>
        some (ReadResult.ok
          { width := store_int w, height := store_int h, max_color := store_int m,
            pixels := (read_pixels (store_int w) (store_int h) px data).1 }) := by
  have hhead : ∃ c rest, ws1 ++ print_int w ++ ws2 ++ print_int h ++ ws3 ++ print_int m ++
      sep :: data = c :: rest ∧ c ≠ 35 ∧ c < 256 := by
    cases ws1 with
    | nil =>
      obtain ⟨d, ds, hd, hd1, hd2⟩ := print_int_head w
      exact ⟨d, _, by rw [hd]; simp only [List.nil_append, List.cons_append]; rfl, hd1, hd2⟩
    | cons c cs =>
      have hc := h1 c (List.mem_cons_self _ _)
      have hc2 := isspace_lt hc
      refine ⟨c, _, by simp only [List.cons_append]; rfl, ?_, hc2⟩
      intro h35
      subst h35
      exact absurd hc (by decide)
  obtain ⟨c, rest, hrest, hc1, hc2⟩ := hhead
  have hscan := scan_header_p6 w h m ws1 ws2 ws3 sep data h1 h2 h3 (isspace_not_digit hsep)
  rw [hrest] at hscan
  have hmagic : scan_str2 (p6_buffer ws1 w ws2 h ws3 m sep data) = ([80, 54], c :: rest) := by
    unfold p6_buffer
    have e : [80, 54] ++ ws1 ++ print_int w ++ ws2 ++ print_int h ++ ws3 ++ print_int m ++
        [sep] ++ data = 80 :: 54 :: (ws1 ++ print_int w ++ ws2 ++ print_int h ++ ws3 ++
          print_int m ++ sep :: data) := by
      simp only [List.append_assoc, List.cons_append, List.nil_append]
    rw [e, hrest]
    unfold scan_str2
    rw [skip_space_cons _ _ (by decide)]
    simp only
    rw [if_neg (by decide)]
  have hc3 : ((c : Nat) : Int) ≠ 35 := by omega
  have hunget : ungetc (c : Int) rest = c :: rest := by
    unfold ungetc EOF
    rw [if_neg (by omega), to_uchar_cast c hc2]
  unfold read_ppm
  rw [hmagic]
  simp only [ne_eq, not_true_eq_false, if_false, fgetc, skip_comments_no_comment fuel _ _ hc3,
    hunget, hscan]

theorem skip_line_succ (fuel : Nat) (s r : List Nat) (h : skip_line fuel s = some r) :
    skip_line (fuel + 1) s = some r := by
  induction fuel generalizing s with
  | zero => simp [skip_line] at h
  | succ f ih =>
    rw [skip_line] at h ⊢
    cases hf : fgetc s with
    | mk c s1 =>
      rw [hf] at h
      simp only at h ⊢
      by_cases hc : c ≠ 10
      · rw [if_pos hc] at h ⊢
        exact ih s1 h
      · rw [if_neg hc] at h ⊢
        exact h

theorem skip_comments_succ (fuel : Nat) (c : Int) (s : List Nat) (r : Int × List Nat)
    (h : skip_comments fuel c s = some r) : skip_comments (fuel + 1) c s = some r := by
  induction fuel generalizing c s with
  | zero => simp [skip_comments] at h
  | succ f ih =>
    rw [skip_comments] at h ⊢
    by_cases hc : c = 35
    · rw [if_pos hc] at h ⊢
      cases hl : skip_line f s with
      | none => rw [hl] at h; simp at h
      | some s1 =>
        rw [hl] at h
        rw [skip_line_succ f s s1 hl]
        simp only at h ⊢
        cases hf : fgetc s1 with
        | mk c1 s2 =>
          rw [hf] at h
          simp only at h ⊢
          exact ih c1 s2 h
    · rw [if_neg hc] at h ⊢
      exact h

/-- A result of `read_ppm` does not depend on the fuel: once the function has
returned within `fuel` steps, it returns the same with any larger fuel. -/
theorem read_ppm_fuel_mono (junk : Nat → Nat → Pixel) (fuel fuel' : Nat) (file : List Nat)
    (r : ReadResult) (hle : fuel ≤ fuel') (h : read_ppm junk fuel file = some r) :
    read_ppm junk fuel' file = some r := by
  induction fuel' with
  | zero =>
    have : fuel = 0 := by omega
    subst this
    exact h
  | succ f ih =>
    by_cases hf : fuel = f + 1
    · subst hf
      exact h
    · have h' := ih (by omega)
      unfold read_ppm at h' ⊢
      cases hm : scan_str2 file with
      | mk magic s0 =>
        rw [hm] at h'
        simp only at h' ⊢
        by_cases hmg : magic ≠ [80, 54]
        · rw [if_pos hmg] at h' ⊢
          exact h'
        · rw [if_neg hmg] at h' ⊢
          cases hg : fgetc s0 with
          | mk c s1 =>
            rw [hg] at h'
            simp only at h' ⊢
            cases hs : skip_comments f c s1 with
            | none => rw [hs] at h'; simp at h'
            | some p =>
              rw [hs] at h'
              rw [skip_comments_succ f c s1 p hs]
              exact h'

/-! ## Decoding when memory can run short -/

theorem allocate_pixels_heap_plentiful (first : Nat) (junk : Nat → Nat → Pixel)
    (width height : Int) :
    allocate_pixels_heap plentiful_heap first junk width height =
      allocate_pixels junk width height := by
  unfold allocate_pixels_heap allocate_pixels malloc_heap plentiful_heap
  simp only [Bool.and_true]
  by_cases hh : malloc_ok height = true
  · by_cases hw : malloc_ok width = true
    · simp [hh, hw]
    · by_cases h0 : 0 < height
      · have hex : ∃ x : Nat, (x : Int) < height := ⟨0, by omega⟩
        simp [hh, hw, h0, hex]
      · have hz : ∀ x : Nat, ¬ (x : Int) < height := fun x => by omega
        simp [hh, hw, h0, hz]
  · simp [hh]

/-- With a heap that grants every call, `read_ppm_heap` is `read_ppm`. -/
theorem read_ppm_heap_plentiful (junk : Nat → Nat → Pixel) (fuel : Nat) (file : List Nat) :
    read_ppm_heap plentiful_heap junk fuel file = read_ppm junk fuel file := by
  unfold read_ppm_heap read_ppm
  simp only [allocate_pixels_heap_plentiful]
  have hm : malloc_heap plentiful_heap 0 1 = true := by decide
  simp only [hm, not_true_eq_false, if_false]

theorem allocate_pixels_heap_granted (heap : Nat → Int → Bool) (first : Nat)
    (junk : Nat → Nat → Pixel) (w h : Int)
    (hg : (malloc_heap heap first h &&
      (List.range h.toNat).all (fun i => malloc_heap heap (first + 1 + i) w)) = true) :
    ∃ px, allocate_pixels_heap heap first junk w h = some px ∧ shape px h w := by
  rw [Bool.and_eq_true] at hg
  refine ⟨(List.range h.toNat).map fun i => (List.range w.toNat).map fun j => junk i j, ?_, ?_⟩
  · unfold allocate_pixels_heap
    rw [if_neg (by simp [hg.1]), if_neg (by simp only [hg.2, not_true_eq_false, not_false_eq_true])]
  · refine ⟨by simp, ?_⟩
    intro row hrow
    simp only [List.mem_map, List.mem_range] at hrow
    obtain ⟨_, _, rfl⟩ := hrow
    simp

theorem allocate_pixels_heap_refused (heap : Nat → Int → Bool) (first : Nat)
    (junk : Nat → Nat → Pixel) (w h : Int)
    (hg : (malloc_heap heap first h &&
      (List.range h.toNat).all (fun i => malloc_heap heap (first + 1 + i) w)) = false) :
    allocate_pixels_heap heap first junk w h = none := by
  unfold allocate_pixels_heap
  by_cases h1 : malloc_heap heap first h = true
  · rw [h1, Bool.true_and] at hg
    rw [if_neg (by simp [h1]), if_pos (by simp only [hg, Bool.false_eq_true, not_false_eq_true])]
  · rw [if_pos h1]

theorem read_ppm_heap_p6_buffer (heap : Nat → Int → Bool) (junk : Nat → Nat → Pixel)
    (fuel : Nat) (w h m : Int)
    (ws1 ws2 ws3 : List Nat) (sep : Nat) (data : List Nat)
    (h1 : ∀ x ∈ ws1, isspace x = true)
    (h2 : ws2 ≠ [] ∧ ∀ x ∈ ws2, isspace x = true)
    (h3 : ws3 ≠ [] ∧ ∀ x ∈ ws3, isspace x = true) (hsep : isspace sep = true) :
    read_ppm_heap heap junk (fuel + 1) (p6_buffer ws1 w ws2 h ws3 m sep data) =
      if ¬ malloc_heap heap 0 1 then some ReadResult.alloc_failed
      else
        match allocate_pixels_heap heap 1 junk (store_int w) (store_int h) with
        | none => some ReadResult.alloc_failed
        | some px =>
          some (ReadResult.ok
            { width := store_int w, height := store_int h, max_color := store_int m,
              pixels := (read_pixels (store_int w) (store_int h) px data).1 }) := by
  have hhead : ∃ c rest, ws1 ++ print_int w ++ ws2 ++ print_int h ++ ws3 ++ print_int m ++
      sep :: data = c :: rest ∧ c ≠ 35 ∧ c < 256 := by
    cases ws1 with
    | nil =>
      obtain ⟨d, ds, hd, hd1, hd2⟩ := print_int_head w
      exact ⟨d, _, by rw [hd]; simp only [List.nil_append, List.cons_append]; rfl, hd1, hd2⟩
    | cons c cs =>
      have hc := h1 c (List.mem_cons_self _ _)
      have hc2 := isspace_lt hc
      refine ⟨c, _, by simp only [List.cons_append]; rfl, ?_, hc2⟩
      intro h35
      subst h35
      exact absurd hc (by decide)
  obtain ⟨c, rest, hrest, hc1, hc2⟩ := hhead
  have hscan := scan_header_p6 w h m ws1 ws2 ws3 sep data h1 h2 h3 (isspace_not_digit hsep)
  rw [hrest] at hscan
  have hmagic : scan_str2 (p6_buffer ws1 w ws2 h ws3 m sep data) = ([80, 54], c :: rest) := by
    unfold p6_buffer
    have e : [80, 54] ++ ws1 ++ print_int w ++ ws2 ++ print_int h ++ ws3 ++ print_int m ++
        [sep] ++ data = 80 :: 54 :: (ws1 ++ print_int w ++ ws2 ++ print_int h ++ ws3 ++
          print_int m ++ sep :: data) := by
      simp only [List.append_assoc, List.cons_append, List.nil_append]
    rw [e, hrest]
    unfold scan_str2
    rw [skip_space_cons _ _ (by decide)]
    simp only
    rw [if_neg (by decide)]
  have hc3 : ((c : Nat) : Int) ≠ 35 := by omega
  have hunget : ungetc (c : Int) rest = c :: rest := by
    unfold ungetc EOF
    rw [if_neg (by omega), to_uchar_cast c hc2]
  unfold read_ppm_heap
  rw [hmagic]
  simp only [ne_eq, not_true_eq_false, if_false, fgetc, skip_comments_no_comment fuel _ _ hc3,
    hunget, hscan]

/-! ## The codec round trip -/

/-- C1, as stated, fails: a width of 2^31 does not fit the `int` field; on the
canonical buffer for width 2147483648, height 1, max_color 255 with its
3 * 2147483648 data bytes the width is stored as a negative number, the
allocation fails and `read_ppm` returns `NULL`. -/
theorem read_ppm_width_beyond_int_counterexample :
    read_ppm zero_junk 1
      (p6_buffer [10] 2147483648 [32] 1 [10] 255 10 (List.replicate (3 * 2147483648 * 1) 0)) =
      some ReadResult.alloc_failed := by
  rw [read_ppm_p6_buffer zero_junk 0 2147483648 1 255 [10] [32] [10] 10 _ (by decide)
    (by decide) (by decide) (by decide)]
  have e1 : store_int 2147483648 = -2147483648 := by decide
  have e2 : store_int 1 = 1 := by decide
  rw [e1, e2]
  rfl

/-- C1, amended: for every W and H from 1 to 2147483647 (the range of the `int`
fields), max_color M in 1..255 and every sequence D of exactly 3*W*H bytes, and
for every buffer made of the magic "P6", white space, W, white space, H, white
space, M, one white-space byte and D: when every `malloc` call of `read_ppm`
is granted, `read_ppm` returns a grid of width W, height H and max_color M,
and `write_ppm` of that grid is exactly "P6\nW H\nM\n" followed by D, which is
the buffer itself when the buffer uses that header; when one of the `malloc`
calls is refused, `read_ppm` returns `NULL` through its "Memory allocation
failed" exit. -/
theorem read_ppm_write_ppm_round_trip (heap : Nat → Int → Bool) (junk : Nat → Nat → Pixel)
    (fuel : Nat) (W H M : Nat)
    (ws1 ws2 ws3 : List Nat) (sep : Nat) (data : List Nat)
    (hW : 1 ≤ W ∧ W ≤ 2147483647) (hH : 1 ≤ H ∧ H ≤ 2147483647) (hM : 1 ≤ M ∧ M ≤ 255)
    (h1 : ∀ x ∈ ws1, isspace x = true)
    (h2 : ws2 ≠ [] ∧ ∀ x ∈ ws2, isspace x = true)
    (h3 : ws3 ≠ [] ∧ ∀ x ∈ ws3, isspace x = true) (hsep : isspace sep = true)
    (hlen : data.length = 3 * W * H) (hbytes : ∀ x ∈ data, x < 256) :
    (memory_granted heap W H = true →
      ∃ img, read_ppm_heap heap junk (fuel + 1) (p6_buffer ws1 W ws2 H ws3 M sep data) =
          some (ReadResult.ok img) ∧
        img.width = W ∧ img.height = H ∧ img.max_color = M ∧ img.valid ∧
        write_ppm img = canonical_header W H M ++ data) ∧
    (memory_granted heap W H = false →
      read_ppm_heap heap junk (fuel + 1) (p6_buffer ws1 W ws2 H ws3 M sep data) =
        some ReadResult.alloc_failed) ∧
    p6_buffer [10] W [32] H [10] M 10 data = canonical_header W H M ++ data := by
  have eW : store_int (W : Int) = W := store_int_of_range _ (by norm_num; omega) (by norm_num; omega)
  have eH : store_int (H : Int) = H := store_int_of_range _ (by norm_num; omega) (by norm_num; omega)
  have eM : store_int (M : Int) = M := store_int_of_range _ (by norm_num; omega) (by norm_num; omega)
  have hread := read_ppm_heap_p6_buffer heap junk fuel W H M ws1 ws2 ws3 sep data h1 h2 h3 hsep
  rw [eW, eH, eM] at hread
  refine ⟨?_, ?_, ?_⟩
  · intro hmem
    unfold memory_granted at hmem
    rw [Bool.and_assoc, Bool.and_eq_true] at hmem
    obtain ⟨hm0, hrows⟩ := hmem
    obtain ⟨px, hpx, hshape⟩ := allocate_pixels_heap_granted heap 1 junk (W : Int) (H : Int) hrows
    obtain ⟨hs, hget⟩ := read_pixels_spec W H px data hshape hlen hbytes
    refine ⟨{ width := W, height := H, max_color := M,
              pixels := (read_pixels W H px data).1 }, ?_, rfl, rfl, rfl, ?_, ?_⟩
    · rw [hread, if_neg (by simp [hm0]), hpx]
    · exact valid_of_shape (by simp only; omega) (by simp only; omega) hs
    · unfold write_ppm canonical_header
      exact write_pixels_spec W H _ data _ hlen hbytes hget
  · intro hmem
    unfold memory_granted at hmem
    rw [Bool.and_assoc] at hmem
    rw [hread]
    by_cases hm0 : malloc_heap heap 0 1 = true
    · rw [hm0, Bool.true_and] at hmem
      rw [if_neg (by simp [hm0]),
        allocate_pixels_heap_refused heap 1 junk (W : Int) (H : Int) hmem]
    · rw [if_pos hm0]
  · unfold p6_buffer canonical_header
    simp only [List.append_assoc, List.cons_append, List.nil_append]

theorem read_ppm_write_ppm_round_trip_witness :
    (memory_granted plentiful_heap 2 1 = true ∧
      ∃ img, read_ppm_heap plentiful_heap zero_junk 1 (p6_buffer [32, 10] 2 [9] 1 [13, 10] 255 32
          [10, 20, 30, 40, 50, 60]) = some (ReadResult.ok img) ∧
        img.width = 2 ∧ img.height = 1 ∧ img.max_color = 255 ∧ img.valid ∧
        write_ppm img = canonical_header 2 1 255 ++ [10, 20, 30, 40, 50, 60]) ∧
    (memory_granted small_heap 2000 1 = false ∧
      read_ppm_heap small_heap zero_junk 1
          (p6_buffer [10] 2000 [32] 1 [10] 255 10 (List.replicate 6000 0)) =
        some ReadResult.alloc_failed) :=
  ⟨⟨by decide,
    (read_ppm_write_ppm_round_trip plentiful_heap zero_junk 0 2 1 255 [32, 10] [9] [13, 10] 32
      [10, 20, 30, 40, 50, 60] (by decide) (by decide) (by decide) (by decide) (by decide)
      (by decide) (by decide) (by decide) (by decide)).1 (by decide)⟩,
   ⟨by decide,
    (read_ppm_write_ppm_round_trip small_heap zero_junk 0 2000 1 255 [10] [32] [10] 10
      (List.replicate 6000 0) (by decide) (by decide) (by decide) (by decide) (by decide)
      (by decide) (by decide) (List.length_replicate 6000 0)
      (by intro x hx; rw [List.eq_of_mem_replicate hx]; decide)).2.1 (by decide)⟩⟩

/-! ## Comments and truncated data -/

/-- C9 at the input of the claim: with a comment line on the line after the
magic, `read_ppm` returns `NULL` with "Invalid PPM header", while the same
buffer without the comment decodes to the grid of width 2 and height 1. -/
theorem read_ppm_comment_line_after_magic :
    read_ppm zero_junk 100
        (bytes "P6\n# comment\n2 1\n255\n" ++ [10, 20, 30, 40, 50, 60]) =
      some ReadResult.invalid_header ∧
    read_ppm zero_junk 100 (bytes "P6\n2 1\n255\n" ++ [10, 20, 30, 40, 50, 60]) =
      some (ReadResult.ok scenario_2x1) := by
  decide

/-- C10 at a 3x3 header followed by 26 data bytes: `read_ppm` returns a grid,
and the missing last byte is stored as 255, the value of `EOF` in an
`unsigned char`. -/
theorem read_ppm_truncated_data_accepted :
    read_ppm zero_junk 100 (bytes "P6\n3 3\n255\n" ++ List.replicate 26 7) =
      some (ReadResult.ok
        { width := 3, height := 3, max_color := 255,
          pixels := [[⟨7, 7, 7⟩, ⟨7, 7, 7⟩, ⟨7, 7, 7⟩], [⟨7, 7, 7⟩, ⟨7, 7, 7⟩, ⟨7, 7, 7⟩],
            [⟨7, 7, 7⟩, ⟨7, 7, 7⟩, ⟨7, 7, 255⟩]] }) := by
  decide

/-! ## The colour filters, cell by cell -/

theorem pixel_map_loop_spec (f : Pixel → Pixel) (img : Image) (hv : img.valid) :
    shape (for_loop img.height (fun i p =>
        for_loop img.width (fun j q => set_pixel q i j (f (get_pixel q i j))) p) img.pixels)
      img.height img.width ∧
    ∀ a b : Int, 0 ≤ a → a < img.height → 0 ≤ b → b < img.width →
      get_pixel (for_loop img.height (fun i p =>
        for_loop img.width (fun j q => set_pixel q i j (f (get_pixel q i j))) p) img.pixels)
        a b = f (get_pixel img.pixels a b) := by
  obtain ⟨hw, hh, hlen, hrows⟩ := hv
  have outer := for_loop_inv
    (fun k p => shape p img.height img.width ∧
      ∀ a b : Int, 0 ≤ a → a < img.height → 0 ≤ b → b < img.width →
        (a < k → get_pixel p a b = f (get_pixel img.pixels a b)) ∧
        (¬ a < k → get_pixel p a b = get_pixel img.pixels a b))
    img.height
    (fun i p => for_loop img.width (fun j q => set_pixel q i j (f (get_pixel q i j))) p)
    img.pixels
    ⟨⟨hlen, hrows⟩, by
      intro a b _ _ _ _
      exact ⟨fun h => by simp only [Nat.cast_zero] at h; omega, fun _ => rfl⟩⟩
    (by
      intro k p hk hP
      have inner := for_loop_inv
        (fun m q => shape q img.height img.width ∧
          ∀ a b : Int, 0 ≤ a → a < img.height → 0 ≤ b → b < img.width →
            ((a < k ∨ (a = k ∧ b < m)) → get_pixel q a b = f (get_pixel img.pixels a b)) ∧
            (¬ (a < k ∨ (a = k ∧ b < m)) → get_pixel q a b = get_pixel img.pixels a b))
        img.width
        (fun j q => set_pixel q k j (f (get_pixel q k j))) p
        ⟨hP.1, by
          intro a b h1 h2 h3 h4
          exact ⟨fun h => (hP.2 a b h1 h2 h3 h4).1 (by simp only [Nat.cast_zero] at h; omega),
            fun h => (hP.2 a b h1 h2 h3 h4).2 (by simp only [Nat.cast_zero] at h; omega)⟩⟩
        (by
          intro m q hm hQ
          refine ⟨shape_set_pixel hQ.1 _ _ _, ?_⟩
          intro a b h1 h2 h3 h4
          rw [get_set_pixel hQ.1 _ _ _ a b h1 h2 h3 h4]
          have hcur := (hQ.2 k m (by omega) hk (by omega) hm).2 (by omega)
          by_cases hcell : (k : Int) = a ∧ (m : Int) = b
          · rw [if_pos hcell, hcur]
            obtain ⟨e1, e2⟩ := hcell
            refine ⟨fun _ => by rw [e1, e2], fun h => by push_cast at h; omega⟩
          · rw [if_neg hcell]
            exact ⟨fun h => (hQ.2 a b h1 h2 h3 h4).1 (by push_cast at h; omega),
              fun h => (hQ.2 a b h1 h2 h3 h4).2 (by push_cast at h ⊢; omega)⟩)
      dsimp only at inner ⊢
      refine And.intro inner.1 ?_
      intro a b h1 h2 h3 h4
      exact ⟨fun h => (inner.2 a b h1 h2 h3 h4).1 (by push_cast at h; omega),
        fun h => (inner.2 a b h1 h2 h3 h4).2 (by push_cast at h; omega)⟩)
  dsimp only at outer
  refine And.intro outer.1 ?_
  intro a b h1 h2 h3 h4
  exact (outer.2 a b h1 h2 h3 h4).1 (by omega)

theorem apply_grayscale_spec (img : Image) (hv : img.valid) :
    shape (apply_grayscale img).pixels img.height img.width ∧
    ∀ a b : Int, 0 ≤ a → a < img.height → 0 ≤ b → b < img.width →
      get_pixel (apply_grayscale img).pixels a b = gray_pixel (get_pixel img.pixels a b) :=
  pixel_map_loop_spec gray_pixel img hv

theorem apply_invert_spec (img : Image) (hv : img.valid) :
    shape (apply_invert img).pixels img.height img.width ∧
    ∀ a b : Int, 0 ≤ a → a < img.height → 0 ≤ b → b < img.width →
      get_pixel (apply_invert img).pixels a b = invert_pixel (get_pixel img.pixels a b) :=
  pixel_map_loop_spec invert_pixel img hv

theorem get_pixel_eight_bit (img : Image) (h8 : img.eight_bit) (a b : Int) :
    (get_pixel img.pixels a b).r < 256 ∧ (get_pixel img.pixels a b).g < 256 ∧
      (get_pixel img.pixels a b).b < 256 := by
  unfold get_pixel
  split
  · by_cases ha : a.toNat < img.pixels.length
    · have hrow : img.pixels.getD a.toNat [] = img.pixels[a.toNat] :=
        List.getD_eq_getElem _ _ ha
      rw [hrow]
      by_cases hb : b.toNat < (img.pixels[a.toNat]).length
      · rw [List.getD_eq_getElem _ _ hb]
        exact h8 _ (List.getElem_mem ha) _ (List.getElem_mem hb)
      · rw [List.getD_eq_default _ _ (by omega)]
        decide
    · have hrow : img.pixels.getD a.toNat [] = [] := List.getD_eq_default _ _ (by omega)
      rw [hrow]
      simp
  · decide

theorem to_uchar_lt (c : Int) : to_uchar c < 256 := by
  unfold to_uchar
  omega

theorem gray_pixel_eq (p : Pixel) (hr : p.r < 256) (hg : p.g < 256) (hb : p.b < 256) :
    gray_pixel p = ⟨(p.r + p.g + p.b) / 3, (p.r + p.g + p.b) / 3, (p.r + p.g + p.b) / 3⟩ := by
  have e : to_uchar (Int.tdiv ((p.r : Int) + p.g + p.b) 3) = (p.r + p.g + p.b) / 3 := by
    rw [Int.tdiv_eq_ediv (by omega) (by omega)]
    unfold to_uchar
    omega
  unfold gray_pixel
  rw [e]

theorem gray_pixel_idem (p : Pixel) : gray_pixel (gray_pixel p) = gray_pixel p := by
  have hlt := to_uchar_lt (Int.tdiv ((p.r : Int) + p.g + p.b) 3)
  rw [gray_pixel_eq (gray_pixel p) hlt hlt hlt]
  simp only [gray_pixel, Pixel.mk.injEq]
  omega

theorem invert_pixel_eq (p : Pixel) (hr : p.r < 256) (hg : p.g < 256) (hb : p.b < 256) :
    invert_pixel p = ⟨255 - p.r, 255 - p.g, 255 - p.b⟩ := by
  simp only [invert_pixel, to_uchar, Pixel.mk.injEq]
  omega

theorem invert_pixel_twice (p : Pixel) (hr : p.r < 256) (hg : p.g < 256) (hb : p.b < 256) :
    invert_pixel (invert_pixel p) = p := by
  cases p with
  | mk r g b =>
    simp only at hr hg hb
    simp only [invert_pixel, to_uchar, Pixel.mk.injEq]
    omega

theorem apply_grayscale_valid (img : Image) (hv : img.valid) : (apply_grayscale img).valid := by
  have hs := (apply_grayscale_spec img hv).1
  exact ⟨hv.1, hv.2.1, hs.1, hs.2⟩

theorem apply_invert_valid (img : Image) (hv : img.valid) : (apply_invert img).valid := by
  have hs := (apply_invert_spec img hv).1
  exact ⟨hv.1, hv.2.1, hs.1, hs.2⟩

/-! ## The flips -/

theorem flip_horizontal_after (g img : Image) (hg : g.valid) (hw : g.width = img.width)
    (hh : g.height = img.height) :
    shape (flip_horizontal g).pixels img.height img.width ∧
      ∀ a b : Int, 0 ≤ a → a < img.height → 0 ≤ b → b < img.width →
        get_pixel (flip_horizontal g).pixels a b = get_pixel g.pixels a (img.width - 1 - b) := by
  rw [← hw, ← hh]
  exact flip_horizontal_spec g hg

theorem flip_vertical_after (g img : Image) (hg : g.valid) (hw : g.width = img.width)
    (hh : g.height = img.height) :
    shape (flip_vertical g).pixels img.height img.width ∧
      ∀ a b : Int, 0 ≤ a → a < img.height → 0 ≤ b → b < img.width →
        get_pixel (flip_vertical g).pixels a b = get_pixel g.pixels (img.height - 1 - a) b := by
  rw [← hw, ← hh]
  exact flip_vertical_spec g hg

/-- C14: for every grid of width W and height H, after `flip_horizontal` the
width, height and max_color are unchanged, the grid still has H rows of W
pixels, and the pixel at (i, j) is the original pixel at (i, W-1-j); so the
middle column is unchanged when W is odd and the whole grid is unchanged when
W = 1.  On the grid [(10,20,30), (40,50,60)] of width 2 and height 1 the result
is [(40,50,60), (10,20,30)]. -/
theorem flip_horizontal_mirrors_rows (img : Image) (hv : img.valid) :
    (flip_horizontal img).width = img.width ∧ (flip_horizontal img).height = img.height ∧
    (flip_horizontal img).max_color = img.max_color ∧
    shape (flip_horizontal img).pixels img.height img.width ∧
    (∀ i j : Nat, (i : Int) < img.height → (j : Int) < img.width →
      get_pixel (flip_horizontal img).pixels i j =
        get_pixel img.pixels i (img.width - 1 - j)) ∧
    (∀ i j : Nat, (i : Int) < img.height → 2 * (j : Int) + 1 = img.width →
      get_pixel (flip_horizontal img).pixels i j = get_pixel img.pixels i j) ∧
    (img.width = 1 → flip_horizontal img = img) ∧
    flip_horizontal scenario_2x1 =
      { width := 2, height := 1, max_color := 255,
        pixels := [[⟨40, 50, 60⟩, ⟨10, 20, 30⟩]] } := by
  obtain ⟨hs, hget⟩ := flip_horizontal_spec img hv
  refine ⟨rfl, rfl, rfl, hs, ?_, ?_, ?_, by decide⟩
  · intro i j hi hj
    exact hget i j (by omega) hi (by omega) hj
  · intro i j hi hj
    rw [hget i j (by omega) hi (by omega) (by omega)]
    have e : img.width - 1 - (j : Int) = j := by omega
    rw [e]
  · intro h1
    refine image_eq (by rfl) (by rfl) (by rfl) ?_
    apply grid_ext hs ⟨hv.2.2.1, hv.2.2.2⟩
    intro a b ha hb
    rw [hget a b (by omega) ha (by omega) hb]
    have e : img.width - 1 - (b : Int) = b := by omega
    rw [e]

theorem flip_horizontal_mirrors_rows_witness :
    grid_3x2.valid ∧
    (flip_horizontal grid_3x2).width = grid_3x2.width ∧
    (flip_horizontal grid_3x2).height = grid_3x2.height ∧
    (flip_horizontal grid_3x2).max_color = grid_3x2.max_color ∧
    shape (flip_horizontal grid_3x2).pixels grid_3x2.height grid_3x2.width ∧
    (∀ i j : Nat, (i : Int) < grid_3x2.height → (j : Int) < grid_3x2.width →
      get_pixel (flip_horizontal grid_3x2).pixels i j =
        get_pixel grid_3x2.pixels i (grid_3x2.width - 1 - j)) ∧
    (∀ i j : Nat, (i : Int) < grid_3x2.height → 2 * (j : Int) + 1 = grid_3x2.width →
      get_pixel (flip_horizontal grid_3x2).pixels i j = get_pixel grid_3x2.pixels i j) ∧
    (grid_3x2.width = 1 → flip_horizontal grid_3x2 = grid_3x2) ∧
    flip_horizontal scenario_2x1 =
      { width := 2, height := 1, max_color := 255,
        pixels := [[⟨40, 50, 60⟩, ⟨10, 20, 30⟩]] } :=
  ⟨by decide, flip_horizontal_mirrors_rows grid_3x2 (by decide)⟩

/-- C15: for every grid g, `rotate_180` is `flip_horizontal` followed by
`flip_vertical`, and the two flips applied in the other order give exactly the
same grid. -/
theorem flips_commute (img : Image) (hv : img.valid) :
    rotate_180 img = flip_vertical (flip_horizontal img) ∧
    flip_vertical (flip_horizontal img) = flip_horizontal (flip_vertical img) := by
  refine ⟨rfl, ?_⟩
  have hW := hv.1
  have hH := hv.2.1
  obtain ⟨-, hgh⟩ := flip_horizontal_spec img hv
  obtain ⟨-, hgv⟩ := flip_vertical_spec img hv
  obtain ⟨hs1, hg1⟩ := flip_vertical_after (flip_horizontal img) img
    (flip_horizontal_valid img hv) rfl rfl
  obtain ⟨hs2, hg2⟩ := flip_horizontal_after (flip_vertical img) img
    (flip_vertical_valid img hv) rfl rfl
  refine image_eq (by rfl) (by rfl) (by rfl) ?_
  apply grid_ext hs1 hs2
  intro a b ha hb
  rw [hg1 a b (by omega) ha (by omega) hb, hg2 a b (by omega) ha (by omega) hb,
    hgh _ b (by omega) (by omega) (by omega) hb,
    hgv a _ (by omega) ha (by omega) (by omega)]

theorem flips_commute_witness :
    grid_3x2.valid ∧
    rotate_180 grid_3x2 = flip_vertical (flip_horizontal grid_3x2) ∧
    flip_vertical (flip_horizontal grid_3x2) = flip_horizontal (flip_vertical grid_3x2) :=
  ⟨by decide, flips_commute grid_3x2 (by decide)⟩

/-- C16: for every grid g, `flip_horizontal` applied twice returns g, and
`flip_vertical` applied twice returns g: the same width, height, max_color and
pixels. -/
theorem flips_are_involutions (img : Image) (hv : img.valid) :
    flip_horizontal (flip_horizontal img) = img ∧
    flip_vertical (flip_vertical img) = img := by
  have hW := hv.1
  have hH := hv.2.1
  obtain ⟨-, hgh⟩ := flip_horizontal_spec img hv
  obtain ⟨-, hgv⟩ := flip_vertical_spec img hv
  obtain ⟨hs1, hg1⟩ := flip_horizontal_after (flip_horizontal img) img
    (flip_horizontal_valid img hv) rfl rfl
  obtain ⟨hs2, hg2⟩ := flip_vertical_after (flip_vertical img) img
    (flip_vertical_valid img hv) rfl rfl
  constructor
  · refine image_eq (by rfl) (by rfl) (by rfl) ?_
    apply grid_ext hs1 ⟨hv.2.2.1, hv.2.2.2⟩
    intro a b ha hb
    rw [hg1 a b (by omega) ha (by omega) hb, hgh a _ (by omega) ha (by omega) (by omega)]
    have e : img.width - 1 - (img.width - 1 - (b : Int)) = b := by omega
    rw [e]
  · refine image_eq (by rfl) (by rfl) (by rfl) ?_
    apply grid_ext hs2 ⟨hv.2.2.1, hv.2.2.2⟩
    intro a b ha hb
    rw [hg2 a b (by omega) ha (by omega) hb, hgv _ b (by omega) (by omega) (by omega) hb]
    have e : img.height - 1 - (img.height - 1 - (a : Int)) = a := by omega
    rw [e]

theorem flips_are_involutions_witness :
    grid_3x2.valid ∧
    flip_horizontal (flip_horizontal grid_3x2) = grid_3x2 ∧
    flip_vertical (flip_vertical grid_3x2) = grid_3x2 :=
  ⟨by decide, flips_are_involutions grid_3x2 (by decide)⟩

/-! ## The colour filters -/

/-- C17: for every grid with 8-bit channels, `apply_grayscale` leaves width,
height and max_color unchanged, keeps the H rows of W pixels, and replaces the
pixel (r, g, b) at every position by (v, v, v) with v = (r + g + b) / 3, the
quotient of the full sum (no reduction modulo 256); v is at most 255 and lies
between the least and the greatest of r, g, b. -/
theorem apply_grayscale_averages (img : Image) (hv : img.valid) (h8 : img.eight_bit) :
    (apply_grayscale img).width = img.width ∧ (apply_grayscale img).height = img.height ∧
    (apply_grayscale img).max_color = img.max_color ∧
    shape (apply_grayscale img).pixels img.height img.width ∧
    ∀ i j : Nat, (i : Int) < img.height → (j : Int) < img.width →
      get_pixel (apply_grayscale img).pixels i j =
        ⟨((get_pixel img.pixels i j).r + (get_pixel img.pixels i j).g +
            (get_pixel img.pixels i j).b) / 3,
         ((get_pixel img.pixels i j).r + (get_pixel img.pixels i j).g +
            (get_pixel img.pixels i j).b) / 3,
         ((get_pixel img.pixels i j).r + (get_pixel img.pixels i j).g +
            (get_pixel img.pixels i j).b) / 3⟩ ∧
      ((get_pixel img.pixels i j).r + (get_pixel img.pixels i j).g +
          (get_pixel img.pixels i j).b) / 3 ≤ 255 ∧
      min (get_pixel img.pixels i j).r
          (min (get_pixel img.pixels i j).g (get_pixel img.pixels i j).b) ≤
        ((get_pixel img.pixels i j).r + (get_pixel img.pixels i j).g +
          (get_pixel img.pixels i j).b) / 3 ∧
      ((get_pixel img.pixels i j).r + (get_pixel img.pixels i j).g +
          (get_pixel img.pixels i j).b) / 3 ≤
        max (get_pixel img.pixels i j).r
          (max (get_pixel img.pixels i j).g (get_pixel img.pixels i j).b) := by
  obtain ⟨hs, hget⟩ := apply_grayscale_spec img hv
  refine ⟨rfl, rfl, rfl, hs, ?_⟩
  intro i j hi hj
  obtain ⟨hr, hg, hb⟩ := get_pixel_eight_bit img h8 i j
  rw [hget i j (by omega) hi (by omega) hj, gray_pixel_eq _ hr hg hb]
  refine ⟨rfl, ?_, ?_, ?_⟩
  · omega
  · omega
  · omega

theorem apply_grayscale_averages_witness :
    grid_3x2.valid ∧ grid_3x2.eight_bit ∧
    get_pixel (apply_grayscale grid_3x2).pixels (1 : Nat) (2 : Nat) = ⟨254, 254, 254⟩ :=
  ⟨by decide, by decide,
    ((apply_grayscale_averages grid_3x2 (by decide) (by decide)).2.2.2.2 1 2
      (by decide) (by decide)).1⟩

theorem apply_grayscale_after (g img : Image) (hg : g.valid) (hw : g.width = img.width)
    (hh : g.height = img.height) :
    shape (apply_grayscale g).pixels img.height img.width ∧
      ∀ a b : Int, 0 ≤ a → a < img.height → 0 ≤ b → b < img.width →
        get_pixel (apply_grayscale g).pixels a b = gray_pixel (get_pixel g.pixels a b) := by
  rw [← hw, ← hh]
  exact apply_grayscale_spec g hg

theorem apply_invert_after (g img : Image) (hg : g.valid) (hw : g.width = img.width)
    (hh : g.height = img.height) :
    shape (apply_invert g).pixels img.height img.width ∧
      ∀ a b : Int, 0 ≤ a → a < img.height → 0 ≤ b → b < img.width →
        get_pixel (apply_invert g).pixels a b = invert_pixel (get_pixel g.pixels a b) := by
  rw [← hw, ← hh]
  exact apply_invert_spec g hg

/-- C18: for every grid g, `apply_grayscale` applied twice gives exactly the
grid that `apply_grayscale` applied once gives: the same pixel, channel by
channel, at every position. -/
theorem apply_grayscale_fixed_point (img : Image) (hv : img.valid) :
    apply_grayscale (apply_grayscale img) = apply_grayscale img := by
  obtain ⟨hs1, hg1⟩ := apply_grayscale_spec img hv
  obtain ⟨hs2, hg2⟩ := apply_grayscale_after (apply_grayscale img) img
    (apply_grayscale_valid img hv) rfl rfl
  refine image_eq (by rfl) (by rfl) (by rfl) ?_
  apply grid_ext hs2 hs1
  intro a b ha hb
  rw [hg2 a b (by omega) ha (by omega) hb, hg1 a b (by omega) ha (by omega) hb,
    gray_pixel_idem]

theorem apply_grayscale_fixed_point_witness :
    grid_3x2.valid ∧ apply_grayscale (apply_grayscale grid_3x2) = apply_grayscale grid_3x2 :=
  ⟨by decide, apply_grayscale_fixed_point grid_3x2 (by decide)⟩

/-- C19: for every grid with 8-bit channels, whatever its max_color,
`apply_invert` leaves width, height and max_color unchanged and maps the pixel
(r, g, b) at every position to (255 - r, 255 - g, 255 - b); applied twice it
returns the grid itself. -/
theorem apply_invert_involution (img : Image) (hv : img.valid) (h8 : img.eight_bit) :
    (apply_invert img).width = img.width ∧ (apply_invert img).height = img.height ∧
    (apply_invert img).max_color = img.max_color ∧
    (∀ i j : Nat, (i : Int) < img.height → (j : Int) < img.width →
      get_pixel (apply_invert img).pixels i j =
        ⟨255 - (get_pixel img.pixels i j).r, 255 - (get_pixel img.pixels i j).g,
         255 - (get_pixel img.pixels i j).b⟩) ∧
    apply_invert (apply_invert img) = img := by
  obtain ⟨hs1, hg1⟩ := apply_invert_spec img hv
  obtain ⟨hs2, hg2⟩ := apply_invert_after (apply_invert img) img
    (apply_invert_valid img hv) rfl rfl
  refine ⟨rfl, rfl, rfl, ?_, ?_⟩
  · intro i j hi hj
    obtain ⟨hr, hg, hb⟩ := get_pixel_eight_bit img h8 i j
    rw [hg1 i j (by omega) hi (by omega) hj, invert_pixel_eq _ hr hg hb]
  · refine image_eq (by rfl) (by rfl) (by rfl) ?_
    apply grid_ext hs2 ⟨hv.2.2.1, hv.2.2.2⟩
    intro a b ha hb
    obtain ⟨hr, hg, hb8⟩ := get_pixel_eight_bit img h8 a b
    rw [hg2 a b (by omega) ha (by omega) hb, hg1 a b (by omega) ha (by omega) hb,
      invert_pixel_twice _ hr hg hb8]

theorem apply_invert_involution_witness :
    grid_3x2.valid ∧ grid_3x2.eight_bit ∧ apply_invert (apply_invert grid_3x2) = grid_3x2 :=
  ⟨by decide, by decide, (apply_invert_involution grid_3x2 (by decide) (by decide)).2.2.2.2⟩

/-! ## Encoding, then decoding -/

theorem pixel_bytes_getD (W H : Nat) (px : List (List Pixel)) (a b k : Nat) (ha : a < H)
    (hb : b < W) (hk : k < 3) :
    (pixel_bytes W H px).getD (3 * (W * a + b) + k) 0 = channel k (get_pixel px a b) := by
  have hbound := cell_offset_bound W H a b ha hb
  have hlt : 3 * (W * a + b) + k < (pixel_bytes W H px).length := by
    simp only [pixel_bytes, List.length_map, List.length_range]
    omega
  have e1 : (3 * (W * a + b) + k) % 3 = k := by omega
  have e2 : (3 * (W * a + b) + k) / 3 = W * a + b := by omega
  have e3 : (W * a + b) / W = a := by
    rw [Nat.mul_add_div (by omega), Nat.div_eq_of_lt hb, Nat.add_zero]
  have e4 : (W * a + b) % W = b := by
    rw [Nat.mul_add_mod, Nat.mod_eq_of_lt hb]
  rw [List.getD_eq_getElem _ _ hlt]
  simp only [pixel_bytes, List.getElem_map, List.getElem_range, e1, e2, e3, e4]

theorem pixel_at_pixel_bytes (W H : Nat) (px : List (List Pixel)) (a b : Nat) (ha : a < H)
    (hb : b < W) :
    pixel_at (pixel_bytes W H px) (3 * (W * a + b)) = get_pixel px a b := by
  have h0 := pixel_bytes_getD W H px a b 0 ha hb (by omega)
  have h1 := pixel_bytes_getD W H px a b 1 ha hb (by omega)
  have h2 := pixel_bytes_getD W H px a b 2 ha hb (by omega)
  rw [Nat.add_zero] at h0
  unfold pixel_at
  rw [h0, h1, h2]
  rfl

theorem pixel_bytes_lt (W H : Nat) (img : Image) (h8 : img.eight_bit) :
    ∀ x ∈ pixel_bytes W H img.pixels, x < 256 := by
  intro x hx
  simp only [pixel_bytes, List.mem_map, List.mem_range] at hx
  obtain ⟨n, -, rfl⟩ := hx
  obtain ⟨hr, hg, hb⟩ := get_pixel_eight_bit img h8 ((n / 3 / W : Nat) : Int)
    ((n / 3 % W : Nat) : Int)
  unfold channel
  split
  · exact hr
  · split
    · exact hg
    · exact hb

theorem write_ppm_eq (W H : Nat) (m : Int) (px : List (List Pixel))
    (h8 : ∀ x ∈ pixel_bytes W H px, x < 256) :
    write_ppm { width := W, height := H, max_color := m, pixels := px } =
      canonical_header W H m ++ pixel_bytes W H px := by
  unfold write_ppm canonical_header
  exact write_pixels_spec W H px (pixel_bytes W H px) _
    (by simp [pixel_bytes]) h8
    (fun a b ha hb => (pixel_at_pixel_bytes W H px a b ha hb).symm)

theorem skip_line_no_newline (fuel : Nat) (s : List Nat) (h : ∀ x ∈ s, x ≠ 10) :
    skip_line fuel s = none := by
  induction fuel generalizing s with
  | zero => rfl
  | succ f ih =>
    cases s with
    | nil =>
      rw [skip_line]
      simp only [fgetc, EOF]
      rw [if_pos (by decide)]
      exact ih [] (by simp)
    | cons c cs =>
      rw [skip_line]
      simp only [fgetc]
      have hc : c ≠ 10 := h c (List.mem_cons_self _ _)
      rw [if_pos (by omega)]
      exact ih cs (fun x hx => h x (List.mem_cons_of_mem _ hx))

/-- C11, as stated, fails: a buffer that begins with a space followed by "P6"
and a well-formed header does not begin with the bytes 'P','6', and `read_ppm`
decodes it. -/
theorem read_ppm_leading_space_counterexample :
    read_ppm zero_junk 1 (bytes " P6\n1 1\n255\n" ++ [1, 2, 3]) =
      some (ReadResult.ok { width := 1, height := 1, max_color := 255,
                            pixels := [[⟨1, 2, 3⟩]] }) := by
  decide

/-- C11, amended: for every input buffer that, once its leading white-space
bytes are skipped, does not begin with the two bytes 'P','6' (for instance one
beginning with "P5"), `read_ppm` returns `NULL` through its "Not a valid P6 PPM
file" exit, whatever bytes follow and before any loop is entered. -/
theorem read_ppm_rejects_other_magic (junk : Nat → Nat → Pixel) (fuel : Nat) (file : List Nat)
    (h : (skip_space file).take 2 ≠ [80, 54]) :
    read_ppm junk fuel file = some ReadResult.not_p6 := by
  have hmagic : (scan_str2 file).1 ≠ [80, 54] := by
    unfold scan_str2
    cases hs : skip_space file with
    | nil => simp
    | cons c cs =>
      cases cs with
      | nil => simp
      | cons d ds =>
        rw [hs] at h
        simp only [List.take_succ_cons, List.take_zero] at h
        simp only
        split
        · simp
        · exact h
  unfold read_ppm
  cases hsc : scan_str2 file with
  | mk magic s0 =>
    rw [hsc] at hmagic
    simp only at hmagic ⊢
    rw [if_pos hmagic]

theorem read_ppm_rejects_other_magic_witness :
    (skip_space (bytes "P5\n1 1\n255\n" ++ [1, 2, 3])).take 2 ≠ [80, 54] ∧
    read_ppm zero_junk 1 (bytes "P5\n1 1\n255\n" ++ [1, 2, 3]) = some ReadResult.not_p6 :=
  ⟨by decide,
    read_ppm_rejects_other_magic zero_junk 1 (bytes "P5\n1 1\n255\n" ++ [1, 2, 3]) (by decide)⟩

/-- C12 at the input "P6#abc": whatever the number of steps allowed, `read_ppm`
has not returned, because the loop `while (fgetc(file) != '\n');` reads `EOF`
again and again. -/
theorem read_ppm_unterminated_comment_never_returns (junk : Nat → Nat → Pixel) (fuel : Nat) :
    read_ppm junk fuel (bytes "P6#abc") = none := by
  have hfile : bytes "P6#abc" = [80, 54, 35, 97, 98, 99] := by decide
  have hscan : scan_str2 [80, 54, 35, 97, 98, 99] = ([80, 54], [35, 97, 98, 99]) := by decide
  rw [hfile]
  unfold read_ppm
  rw [hscan]
  simp only [ne_eq, not_true_eq_false, if_false, fgetc]
  cases fuel with
  | zero => rfl
  | succ f =>
    rw [skip_comments, if_pos (by decide), skip_line_no_newline f [97, 98, 99] (by decide)]

/-- C13 at the inputs "P6\n0 0\n255\n", "P6\n0 1\n255\n" and "P6\n-1 2\n255\n":
for a zero width or height `read_ppm` returns an empty grid, and for a
negative width it returns `NULL` through the allocation exit, not through the
"Invalid PPM header" exit. -/
theorem read_ppm_non_positive_dimensions :
    read_ppm zero_junk 100 (bytes "P6\n0 0\n255\n") =
      some (ReadResult.ok { width := 0, height := 0, max_color := 255, pixels := [] }) ∧
    read_ppm zero_junk 100 (bytes "P6\n0 1\n255\n") =
      some (ReadResult.ok { width := 0, height := 1, max_color := 255, pixels := [[]] }) ∧
    read_ppm zero_junk 100 (bytes "P6\n-1 2\n255\n") = some ReadResult.alloc_failed := by
  decide

end ImageFilter
